import Mathlib

/-!
Verification development for the filesystem-backed note persistence layer of
the simplenote-electron desktop application (`src/desktop/preload.js`).

The JavaScript module is shallowly embedded:
* Filesystem paths are absolute, normalized POSIX paths, modelled as lists of
  segments (`Path`).  Node's `path.join` normalizes `.` and `..` during the
  join, so every path the module manipulates is normalized; consequently
  `path.resolve` acts as the identity on them (`pathResolve`).
* The filesystem is a finite map: a list of existing directories plus an
  association list from file paths to file contents (`FS`).  Stateful
  operations (`fs.mkdirSync`, `fs.rmSync`, `fs.renameSync`, ...) are explicit
  state-passing functions on `FS`.
* JSON files written by the module hold either the metadata snapshot or the
  revisions table; `FileData` distinguishes those from plain text files and
  from unreadable/malformed files (`junk`), so that `readJsonFile`'s
  catch-and-return-null behaviour is representable.
* External collaborators (the `showdown` markdown-to-HTML converter, the
  `turndown` HTML-to-markdown converter and Electron's `nativeImage` decoder)
  are parameters of the embedded functions, mirroring the fact that the
  module only feeds strings through them.
* JavaScript string operations (`trim`, whitespace classes, truthiness) are
  modelled on ASCII whitespace, which covers every string the claims touch.
-/

namespace CurNote

set_option maxRecDepth 100000

/-! ## JavaScript string helpers -/

/-- ASCII approximation of the JavaScript `\s` class (space, tab, LF, VT, FF, CR). -/
def jsWhitespace (c : Char) : Bool :=
  c = ' ' || (9 ≤ c.toNat && c.toNat ≤ 13)

/-- JavaScript `String.prototype.trim` (ASCII whitespace model). -/
def jsTrimList (l : List Char) : List Char :=
  ((l.dropWhile jsWhitespace).reverse.dropWhile jsWhitespace).reverse

/-- JavaScript `String.prototype.trim` on `String`. -/
def jsTrim (s : String) : String :=
  String.mk (jsTrimList s.toList)

/-- JavaScript truthiness filter for optional strings: `undefined`, `null`
and `""` are all falsy, so `x ? ... : ...` sees them alike. -/
def jsTruthyOpt (o : Option String) : Option String :=
  match o with
  | some s => if s = "" then none else some s
  | none => none

/-- JavaScript `String.prototype.startsWith` (a plain character-prefix
test). -/
def strHasPrefix (p s : String) : Bool :=
  p.toList.isPrefixOf s.toList

/-- Split a character list at every occurrence of `sep`, keeping empty
segments (the semantics of `String.split` with a separator). -/
def splitOnChar (sep : Char) : List Char → List (List Char)
  | [] => [[]]
  | c :: rest =>
    let r := splitOnChar sep rest
    if c = sep then [] :: r
    else
      match r with
      | h :: t => (c :: h) :: t
      | [] => [[c]]

/-- Split a string on `/` separators. -/
def splitSlash (s : String) : List String :=
  (splitOnChar '/' s.toList).map String.mk

/-! ## The `sanitize-filename` npm library

`sanitizeFilename` is the library's `sanitize(input, '')`: it removes the
characters matched by `illegalRe` and `controlRe`, collapses an all-dots name
(`^\.+$`) and a Windows reserved device name to the empty string, strips
trailing dots and spaces (`[\. ]+$`) and truncates to 255 UTF-8 bytes. -/

def illegalFilenameChar (c : Char) : Bool :=
  c = '/' || c = '?' || c = '<' || c = '>' || c = '\\' || c = ':' || c = '*' || c = '|' || c = '"'

def controlFilenameChar (c : Char) : Bool :=
  c.toNat ≤ 0x1f || (0x80 ≤ c.toNat && c.toNat ≤ 0x9f)

def winReservedNames : List String :=
  ["con", "prn", "aux", "nul"]
    ++ (List.range 10).map (fun i => "com" ++ toString i)
    ++ (List.range 10).map (fun i => "lpt" ++ toString i)

def isWinReserved (s : String) : Bool :=
  let lower := String.mk (s.toList.map Char.toLower)
  winReservedNames.any (fun n => lower == n || strHasPrefix (n ++ ".") lower)

def truncateBytes : List Char → Nat → List Char
  | [], _ => []
  | c :: rest, budget =>
    if c.utf8Size ≤ budget then c :: truncateBytes rest (budget - c.utf8Size) else []

def sanitizeFilename (s : String) : String :=
  let l1 := s.toList.filter (fun c => !illegalFilenameChar c)
  let l2 := l1.filter (fun c => !controlFilenameChar c)
  let l3 := if l2 ≠ [] ∧ l2.all (fun c => c = '.') then [] else l2
  let l4 := if isWinReserved (String.mk l3) then [] else l3
  let l5 := (l4.reverse.dropWhile (fun c => c = '.' || c = ' ')).reverse
  String.mk (truncateBytes l5 255)

/-- `safeName` from `preload.js`: sanitize the trimmed name, falling back to
`fallback` when the result is empty (both via `|| fallback` and via the
explicit length check). -/
def safeName (name : String) (fallback : String) : String :=
  let cleaned0 := sanitizeFilename (jsTrim name)
  let cleaned := if cleaned0 = "" then fallback else cleaned0
  if cleaned.length > 0 then cleaned else fallback

/-! ## `noteTitleFromContent`

The source matches `/^\s*([^\n\r]{1,64})/m` against the content, trims the
captured group, falls back to `"New Note"`, strips a Markdown heading prefix
(`/^\s*#{1,6}\s+/`, i.e. one to six hashes followed by whitespace) and trims
again, with a final `"New Note"` fallback.  When the content contains a
non-whitespace character the leftmost regex match captures up to 64
characters of the line starting at that character; when the content is all
whitespace the group (if any) trims to the empty string. -/

def stripHeading (t : String) : String :=
  let l := t.toList
  let rest := l.dropWhile jsWhitespace
  let hashes := rest.takeWhile (fun c => c = '#')
  let rest2 := rest.dropWhile (fun c => c = '#')
  if 1 ≤ hashes.length ∧ hashes.length ≤ 6 ∧ rest2.head?.any jsWhitespace
  then String.mk (rest2.dropWhile jsWhitespace)
  else t

def noteTitleFromContent (content : Option String) : String :=
  let s := (content.getD "").toList
  let startRun := s.dropWhile jsWhitespace
  let firstLine := (startRun.takeWhile (fun c => c ≠ '\n' ∧ c ≠ '\r')).take 64
  let t0 := jsTrim (String.mk firstLine)
  let t1 := if t0 = "" then "New Note" else t0
  let t2 := jsTrim (stripHeading t1)
  if t2 = "" then "New Note" else t2

/-! ## Paths

Absolute normalized POSIX paths as segment lists.  `normJoin` is Node's
`path.join` restricted to an absolute, already normalized left argument:
segments of the right argument are appended one by one, with `""`/`.`
skipped and `..` popping the last segment (at the root it is dropped, as
Node does for absolute paths). -/

abbrev Path := List String

def normJoin : Path → List String → Path
  | acc, [] => acc
  | acc, s :: rest =>
    if s = "" ∨ s = "." then normJoin acc rest
    else if s = ".." then normJoin acc.dropLast rest
    else normJoin (acc ++ [s]) rest

/-- `path.join(p, s)` for a single extra argument `s` (which may itself
contain separators and dot segments). -/
def joinSeg (p : Path) (s : String) : Path :=
  normJoin p (splitSlash s)

/-- `path.join(root, rel)` for a relative path string `rel`. -/
def pathJoin (root : Path) (rel : String) : Path :=
  joinSeg root rel

/-- Rendering of an absolute path, as Node returns it on POSIX. -/
def pathToString (p : Path) : String :=
  "/" ++ String.intercalate "/" p

/-- `path.resolve` on an absolute normalized path is the identity. -/
def pathResolve (p : Path) : Path := p

/-- `path.basename`. -/
def lastSeg (p : Path) : String :=
  p.getLast?.getD ""

def dropCommon : List String → List String → (List String × List String)
  | a :: as, b :: bs => if a = b then dropCommon as bs else (a :: as, b :: bs)
  | as, bs => (as, bs)

/-- `path.relative(fromP, toP)` for normalized absolute paths. -/
def pathRelative (fromP toP : Path) : String :=
  let rests := dropCommon fromP toP
  String.intercalate "/" (List.replicate rests.1.length ".." ++ rests.2)

/-- `pathToFileURL(...).toString()`, with percent-encoding elided (all
concrete paths in this development are ASCII without reserved characters). -/
def pathToFileURL (p : Path) : String :=
  "file://" ++ pathToString p

/-! ## Data model

The snapshot handed to `savePersistentState` and stored in `store.json`.
Field absence in the JSON is modelled by `Option`/default values:
a note's `content` is `none` exactly when the field is absent (as in the
stripped metadata notes), and `extra` stands for all remaining fields that
the module spreads through unchanged (`{...note}`, `{...data}`). -/

structure Note where
  content : Option String := none
  deleted : Bool := false
  folderId : Option String := none
  extra : String := ""
deriving DecidableEq

structure Folder where
  name : String := ""
  parentFolderId : Option String := none
  notebookId : Option String := none
deriving DecidableEq

structure Notebook where
  name : Option String := none
deriving DecidableEq

/-- A Store Index entry (`notePaths[noteId]`). -/
structure NPEntry where
  dirRel : Option String := none
  htmlRel : Option String := none
  mdRel : Option String := none
deriving DecidableEq

/-- The snapshot / metadata blob.  `savePersistentState` receives this shape
as `data` (its `notePaths` is ignored except through the spread) and writes
the same shape to `store.json`; `loadPersistentState` returns it. -/
structure Snapshot where
  notes : List (String × Option Note) := []
  folders : List (String × Folder) := []
  notebooks : List (String × Notebook) := []
  notePaths : List (String × NPEntry) := []
  extra : String := ""
deriving DecidableEq

/-- Content of a file on disk.  `text` is a readable text file; `store` and
`revs` are the two well-formed JSON files the module writes; `junk` is a
file that is unreadable or whose JSON fails to parse (both make
`readJsonFile` return `null`). -/
inductive FileData where
  | text : String → FileData
  | store : Snapshot → FileData
  | revs : List (String × String) → FileData
  | junk : FileData
deriving DecidableEq

/-! ## Association-list operations

`assocGet`/`assocSet`/`assocDel` model JavaScript object key access,
assignment and `delete` (and equally `Map.get`/`Map.set`, which on the
deduplicated lists the module builds have the same update-or-append
semantics).  `mapGet`/`mapHas` model `new Map(entriesArray).get/has`, where
a duplicated key takes its last value. -/

def assocGet {κ α : Type} [DecidableEq κ] : List (κ × α) → κ → Option α
  | [], _ => none
  | e :: rest, k => if e.1 = k then some e.2 else assocGet rest k

def assocSet {κ α : Type} [DecidableEq κ] : List (κ × α) → κ → α → List (κ × α)
  | [], k, v => [(k, v)]
  | e :: rest, k, v => if e.1 = k then (k, v) :: rest else e :: assocSet rest k v

def assocDel {κ α : Type} [DecidableEq κ] : List (κ × α) → κ → List (κ × α)
  | [], _ => []
  | e :: rest, k => if e.1 = k then assocDel rest k else e :: assocDel rest k

/-- `new Map(entries).get k`: the value of the last entry with key `k`. -/
def mapGet {α : Type} (l : List (String × α)) (k : String) : Option α :=
  (l.reverse.find? (fun e => e.1 == k)).map (fun e => e.2)

/-- `new Map(entries).has k`. -/
def mapHas {α : Type} (l : List (String × α)) (k : String) : Bool :=
  l.any (fun e => e.1 == k)

/-- `new Map(entries)` as a deduplicated entry list, in `Map` iteration
order (first-insertion order, last value wins). -/
def jsMapOfEntries {α : Type} (l : List (String × α)) : List (String × α) :=
  l.foldl (fun m e => assocSet m e.1 e.2) []

/-! ## The filesystem model -/

structure FS where
  dirs : List Path := []
  files : List (Path × FileData) := []
deriving DecidableEq

/-- `fs.existsSync`: true for an existing directory or file. -/
def existsSync (fs : FS) (p : Path) : Bool :=
  fs.dirs.contains p || fs.files.any (fun e => e.1 == p)

def fileAt (fs : FS) (p : Path) : Option FileData :=
  assocGet fs.files p

/-- All non-empty prefixes of a path, shortest first. -/
def pathInits (p : Path) : List Path :=
  (List.range p.length).map (fun i => p.take (i + 1))

/-- `fs.mkdirSync(p, { recursive: true })` (the module's `ensureDir`). -/
def mkdirp (fs : FS) (p : Path) : FS :=
  { fs with dirs := (pathInits p).foldl (fun ds q => if ds.contains q then ds else ds ++ [q]) fs.dirs }

/-- `fs.writeFileSync` (parents are always ensured first by the module). -/
def writeFileFS (fs : FS) (p : Path) (d : FileData) : FS :=
  { fs with files := assocSet fs.files p d }

/-- `fs.rmSync(p, { recursive: true, force: true })`: removes `p` and the
whole subtree below it. -/
def rmRecursive (fs : FS) (p : Path) : FS :=
  { dirs := fs.dirs.filter (fun q => !p.isPrefixOf q),
    files := fs.files.filter (fun e => !p.isPrefixOf e.1) }

/-- `fs.renameSync(src, dst)` moving a directory subtree. -/
def renameSegs (src dst q : Path) : Path :=
  if src.isPrefixOf q then dst ++ q.drop src.length else q

def renameFS (fs : FS) (src dst : Path) : FS :=
  { dirs := fs.dirs.map (renameSegs src dst),
    files := fs.files.map (fun e => (renameSegs src dst e.1, e.2)) }

/-- Immediate child entry names below `p`, as `fs.readdirSync` would list
them (possibly with repetitions, which is irrelevant to the module's single
use, an emptiness test). -/
def childNames (p : Path) (qs : List Path) : List String :=
  qs.filterMap (fun q =>
    if p.isPrefixOf q && decide (p.length < q.length) then (q.drop p.length).head? else none)

def dirEntries (fs : FS) (p : Path) : List String :=
  childNames p fs.dirs ++ childNames p (fs.files.map (fun e => e.1))

/-- `fs.rmdirSync` (only ever called on an empty directory). -/
def rmdirFS (fs : FS) (p : Path) : FS :=
  { fs with dirs := fs.dirs.filter (fun q => q ≠ p) }

/-- Log of the destructive filesystem operations a save performs. -/
inductive FsOp where
  | rename : Path → Path → FsOp
  | remove : Path → FsOp
deriving DecidableEq

/-! ## The embedded `preload.js` module

The managed root (`getNotesRoot()`, i.e. `<documents>/CurNotes`) is a
parameter `root : Path` of every function. -/

def META_DIR_NAME : String := ".curnote"

def META_FILE_NAME : String := "store.json"

def REVISIONS_FILE_NAME : String := "revisions.json"

def metaFilePath (root : Path) : Path :=
  joinSeg (joinSeg root META_DIR_NAME) META_FILE_NAME

def revisionsFilePath (root : Path) : Path :=
  joinSeg (joinSeg root META_DIR_NAME) REVISIONS_FILE_NAME

/-- `readJsonFile` specialised to the metadata store: `none` when the file is
absent, unreadable or not well-formed store JSON (the source returns `null`
in those cases). -/
def readStoreFile (fs : FS) (p : Path) : Option Snapshot :=
  match fileAt fs p with
  | some (FileData.store m) => some m
  | _ => none

/-- `writeJsonFile`: ensure the parent directory, then write. -/
def writeJsonFileFS (fs : FS) (p : Path) (d : FileData) : FS :=
  writeFileFS (mkdirp fs p.dropLast) p d

/-- `safeRmDir(root, dirRel)` from the source, together with the operations
it actually performed.  The guard is the source's string-prefix test
`full.startsWith(root)` on the rendered paths. -/
def safeRmDir (fs : FS) (root : Path) (dirRel : Option String) : FS × List FsOp :=
  match jsTruthyOpt dirRel with
  | none => (fs, [])
  | some rel =>
    let full := pathJoin root rel
    if !strHasPrefix (pathToString root) (pathToString full) then (fs, [])
    else if existsSync fs full then (rmRecursive fs full, [FsOp.remove full]) else (fs, [])

/-- The numbered-suffix candidate `<parent>/<base> (i)` tried by
`ensureUniqueDirPath`. -/
def suffixCand (parent : Path) (base : String) (i : Nat) : Path :=
  joinSeg parent (base ++ " (" ++ toString i ++ ")")

/-- The `for (let i = 2; i < 500; i++)` search, as a fuelled recursion
starting at `i` with `fuel` remaining iterations. -/
def uniqueFrom (fs : FS) (parent : Path) (base : String) : Nat → Nat → Option Path
  | _, 0 => none
  | i, fuel + 1 =>
    if existsSync fs (suffixCand parent base i) then uniqueFrom fs parent base (i + 1) fuel
    else some (suffixCand parent base i)

def ensureUniqueDirPath (fs : FS) (dirPath : Path) : Path :=
  if existsSync fs dirPath then
    match uniqueFrom fs dirPath.dropLast (lastSeg dirPath) 2 498 with
    | some c => c
    | none => dirPath
  else dirPath

/-- One iteration of `cleanupEmptyDirs`' `while` loop; the fuel is one more
than the depth of the start directory, which bounds the iterations since
`cur` loses one segment per step. -/
def cleanupGo (stopDir : Path) : FS → Path → Nat → FS
  | fs, _, 0 => fs
  | fs, cur, fuel + 1 =>
    if strHasPrefix (pathToString stopDir) (pathToString cur) = true
        ∧ pathToString cur ≠ pathToString stopDir then
      if !existsSync fs cur then cleanupGo stopDir fs cur.dropLast fuel
      else if !(dirEntries fs cur).isEmpty then fs
      else cleanupGo stopDir (rmdirFS fs cur) cur.dropLast fuel
    else fs

def cleanupEmptyDirs (fs : FS) (startDir stopDir : Path) : FS :=
  cleanupGo stopDir fs startDir (startDir.length + 1)

/-! ### `buildFolderPath` -/

/-- The parent-chain walk of `buildFolderPath`: while the current folder id
is truthy, known, and not yet seen, its sanitized name is prepended
(`parts.unshift`), so the recursion appends it after the ancestors' names.
The fuel `foldersArray.length + 1` strictly exceeds the number of possible
iterations, since each iteration consumes an unseen key of the map. -/
def buildFolderGo (foldersArray : List (String × Folder)) :
    Option String → List String → Nat → List String
  | _, _, 0 => []
  | cur?, seen, fuel + 1 =>
    match jsTruthyOpt cur? with
    | none => []
    | some cur =>
      if mapHas foldersArray cur ∧ ¬ seen.contains cur then
        match mapGet foldersArray cur with
        | some folder =>
          buildFolderGo foldersArray (jsTruthyOpt folder.parentFolderId) (seen ++ [cur]) fuel
            ++ [safeName folder.name "Folder"]
        | none => []
      else []

def buildFolderPath (foldersArray : List (String × Folder))
    (notebooksArray : List (String × Notebook)) (folderId : Option String) : List String :=
  let parts := buildFolderGo foldersArray (jsTruthyOpt folderId) [] (foldersArray.length + 1)
  let topFolder :=
    match jsTruthyOpt folderId with
    | some fid => if mapHas foldersArray fid then mapGet foldersArray fid else none
    | none => none
  let notebookId := jsTruthyOpt (topFolder.bind (fun f => f.notebookId))
  let notebook :=
    notebookId.bind (fun nid => if mapHas notebooksArray nid then mapGet notebooksArray nid else none)
  let notebookName := safeName ((notebook.bind (fun n => n.name)).getD "Notebook") "Notebook"
  notebookName :: parts

/-! ### `getOrCreateNoteDir` -/

structure NoteDirInfo where
  noteDir : Path
  htmlFile : Path
  folderDir : Path
  noteDirName : String
  folderParts : List String
deriving DecidableEq

def joinParts (p : Path) (parts : List String) : Path :=
  parts.foldl joinSeg p

def getOrCreateNoteDir (fs : FS) (root : Path) (foldersArray : List (String × Folder))
    (notebooksArray : List (String × Notebook)) (note : Note) : FS × NoteDirInfo :=
  let folderParts := buildFolderPath foldersArray notebooksArray (jsTruthyOpt note.folderId)
  let folderDir := joinParts root folderParts
  let fs1 := mkdirp fs folderDir
  let title := noteTitleFromContent note.content
  let noteDirName := safeName title "New Note"
  let noteDir := joinSeg folderDir noteDirName
  let fs2 := mkdirp fs1 noteDir
  let fs3 := mkdirp fs2 (joinSeg noteDir "assets")
  let htmlFile := joinSeg noteDir (noteDirName ++ ".html")
  (fs3, { noteDir := noteDir, htmlFile := htmlFile, folderDir := folderDir,
          noteDirName := noteDirName, folderParts := folderParts })

/-! ### `savePersistentState` -/

/-- The loop state of `savePersistentState`'s per-note `forEach`:
filesystem, `nextNotePaths`, `activeNoteIds` (insertion-ordered set) and the
log of destructive operations performed so far. -/
structure SaveSt where
  fs : FS
  np : List (String × NPEntry)
  active : List String
  trace : List FsOp
deriving DecidableEq

/-- The tail of the live-note branch, shared by the drifted and non-drifted
cases: ensure the final directories, write the HTML file (converted by
`showdown` when available) and record the Store Index entry. -/
def finishNote (root : Path) (conv : Option (String → String)) (noteId : String) (note : Note)
    (fs : FS) (np : List (String × NPEntry)) (active : List String) (trace : List FsOp)
    (finalNoteDir finalHtmlFile : Path) : SaveSt :=
  let fs1 := mkdirp fs finalNoteDir
  let fs2 := mkdirp fs1 (joinSeg finalNoteDir "assets")
  let fs3 := mkdirp fs2 finalHtmlFile.dropLast
  let markdown := note.content.getD ""
  let html := match conv with
    | some f => f markdown
    | none => markdown
  let fs4 := writeFileFS fs3 finalHtmlFile (FileData.text html)
  { fs := fs4,
    np := assocSet np noteId
      { dirRel := some (pathRelative root finalNoteDir),
        htmlRel := some (pathRelative root finalHtmlFile), mdRel := none },
    active := active, trace := trace }

/-- The body of `notesArray.forEach(([noteId, note]) => ...)`. -/
def saveOneNote (root : Path) (foldersArray : List (String × Folder))
    (notebooksArray : List (String × Notebook)) (conv : Option (String → String))
    (prevNotePaths : List (String × NPEntry)) (st : SaveSt) (entry : String × Option Note) :
    SaveSt :=
  match entry.2 with
  | none => st
  | some note =>
    if note.deleted then
      let rm := safeRmDir st.fs root ((assocGet prevNotePaths entry.1).bind (fun e => e.dirRel))
      { fs := rm.1, np := assocDel st.np entry.1, active := st.active, trace := st.trace ++ rm.2 }
    else
      let active := if st.active.contains entry.1 then st.active else st.active ++ [entry.1]
      let prevDirRel := jsTruthyOpt ((assocGet prevNotePaths entry.1).bind (fun e => e.dirRel))
      let created := getOrCreateNoteDir st.fs root foldersArray notebooksArray note
      let fs1 := created.1
      let info := created.2
      match prevDirRel with
      | some r =>
        let prevDir := pathJoin root r
        if existsSync fs1 prevDir = true ∧ pathResolve prevDir ≠ pathResolve info.noteDir then
          let fs2 := mkdirp fs1 info.noteDir.dropLast
          let target := ensureUniqueDirPath fs2 info.noteDir
          let fs3 := renameFS fs2 prevDir target
          let fs4 := cleanupEmptyDirs fs3 prevDir.dropLast root
          let newDirName := lastSeg target
          finishNote root conv entry.1 note fs4 st.np active
            (st.trace ++ [FsOp.rename prevDir target]) target
            (joinSeg target (newDirName ++ ".html"))
        else
          finishNote root conv entry.1 note fs1 st.np active st.trace info.noteDir info.htmlFile
      | none =>
        finishNote root conv entry.1 note fs1 st.np active st.trace info.noteDir info.htmlFile

/-- The `Object.keys(prevNotePaths).forEach` cleanup of notes that
disappeared entirely. -/
def cleanupVanished (root : Path) (prevNotePaths : List (String × NPEntry))
    (st : SaveSt) (kv : String × NPEntry) : SaveSt :=
  if st.active.contains kv.1 = false ∧ assocGet st.np kv.1 = none then
    let rm := safeRmDir st.fs root ((assocGet prevNotePaths kv.1).bind (fun e => e.dirRel))
    { fs := rm.1, np := assocDel st.np kv.1, active := st.active, trace := st.trace ++ rm.2 }
  else st

/-- `previousMeta.notePaths ?? {}`, the Store Index before the save. -/
def savePrevNotePaths (fs : FS) (root : Path) : List (String × NPEntry) :=
  ((readStoreFile (mkdirp fs root) (metaFilePath root)).getD {}).notePaths

/-- The state after `savePersistentState`'s two `forEach` passes: the
per-note pass over the snapshot, then the vanished-note cleanup pass over
the previous Store Index. -/
def saveSt2 (fs : FS) (root : Path) (conv : Option (String → String)) (data : Snapshot) :
    SaveSt :=
  let prevNotePaths := savePrevNotePaths fs root
  let st0 : SaveSt := { fs := mkdirp fs root, np := prevNotePaths, active := [], trace := [] }
  let st1 := data.notes.foldl (saveOneNote root data.folders data.notebooks conv prevNotePaths) st0
  prevNotePaths.foldl (cleanupVanished root prevNotePaths) st1

/-- The metadata blob written by the save: the snapshot spread with
content-stripped notes and the updated `notePaths` index. -/
def savedMeta (fs : FS) (root : Path) (conv : Option (String → String)) (data : Snapshot) :
    Snapshot :=
  { data with
    notes := data.notes.map (fun e => (e.1, e.2.map (fun n => { n with content := none }))),
    notePaths := (saveSt2 fs root conv data).np }

/-- `savePersistentState(data)`.  `conv` is `showdown`'s markdown-to-HTML
converter when the library is available.  Returns the final filesystem and
the log of renames/removals performed. -/
def savePersistentState (fs : FS) (root : Path) (conv : Option (String → String))
    (data : Snapshot) : FS × List FsOp :=
  (cleanupEmptyDirs
    (writeJsonFileFS (saveSt2 fs root conv data).fs (metaFilePath root)
      (FileData.store (savedMeta fs root conv data)))
    (joinSeg root META_DIR_NAME) root,
   (saveSt2 fs root conv data).trace)

/-! ### `loadPersistentState` -/

/-- The per-note rehydration inside `loadPersistentState`.  `conv` is
`turndown`'s HTML-to-markdown converter when the library is available.  The
per-note `try`/`catch` keeps the metadata entry whenever the recorded file
is absent or unreadable. -/
def hydrateNote (fs : FS) (root : Path) (notePaths : List (String × NPEntry))
    (conv : Option (String → String)) (e : String × Option Note) : String × Option Note :=
  let htmlRel := jsTruthyOpt ((assocGet notePaths e.1).bind (fun p => p.htmlRel))
  let mdRel := jsTruthyOpt ((assocGet notePaths e.1).bind (fun p => p.mdRel))
  let fileRel := htmlRel <|> mdRel
  match fileRel.map (pathJoin root) with
  | some fp =>
    if existsSync fs fp then
      match fileAt fs fp with
      | some (FileData.text raw) =>
        let content :=
          match htmlRel, conv with
          | some _, some f => f raw
          | _, _ => raw
        (e.1, some { e.2.getD {} with content := some content })
      | _ => e
    else e
  | none => e

def loadPersistentState (fs : FS) (root : Path) (conv : Option (String → String)) :
    Option Snapshot :=
  match readStoreFile fs (metaFilePath root) with
  | none => none
  | some rawMeta =>
    some { rawMeta with notes := rawMeta.notes.map (hydrateNote fs root rawMeta.notePaths conv) }

/-! ### `saveNoteRevisions` -/

/-- `saveNoteRevisions(noteId, revisions)`; revision payloads are opaque
strings.  An absent or unparsable file yields `[]` (`readJsonFile` returns
`null`, then `?? []`); a parsable JSON value that is not an entries array
makes `new Map(existing)` throw, which the outer `catch` swallows, leaving
the filesystem unchanged. -/
def saveNoteRevisions (fs : FS) (root : Path) (noteId : String) (revisions : String) : FS :=
  let revisionsPath := revisionsFilePath root
  let existing : Option (List (String × String)) :=
    match fileAt fs revisionsPath with
    | some (FileData.revs l) => some l
    | some (FileData.store _) => none
    | _ => some []
  match existing with
  | none => fs
  | some l =>
    writeJsonFileFS fs revisionsPath
      (FileData.revs (assocSet (jsMapOfEntries l) noteId revisions))

/-! ### `saveNoteAssetFromDataUrl` -/

/-- The base64-whitespace normalization applied to image data URLs. -/
def normalizeDataUrl (dataUrl : String) : String :=
  let s := dataUrl
  if !strHasPrefix "data:image/" s then s
  else
    match (s.toList.span (fun c => c ≠ ',')) with
    | (pre, c :: post) => String.mk (pre ++ [c] ++ post.filter (fun ch => !jsWhitespace ch))
    | (_, []) => s

/-- The note-directory resolution shared by the asset helpers
(`saveNoteAssetFromDataUrl`, `saveNoteAssetFromUrl`,
`resolveNoteAssetFileUrl`): take the Store Index's recorded directory when
present, otherwise create the derived one via `getOrCreateNoteDir` and
persist its `dirRel` into the metadata store immediately. -/
def resolveNoteDir (fs : FS) (root : Path) (noteId : String) (note : Note)
    (folders : Option (List (String × Folder))) (notebooks : Option (List (String × Notebook))) :
    FS × Path :=
  match jsTruthyOpt ((assocGet ((readStoreFile (mkdirp fs root) (metaFilePath root)).getD
      {}).notePaths noteId).bind (fun e => e.dirRel)) with
  | some r => (mkdirp fs root, pathJoin root r)
  | none =>
    let fs0 := mkdirp fs root
    let rawMeta := (readStoreFile fs0 (metaFilePath root)).getD {}
    let notePaths := rawMeta.notePaths
    let created := getOrCreateNoteDir fs0 root (folders.getD []) (notebooks.getD rawMeta.notebooks) note
    let noteDir := created.2.noteDir
    (writeJsonFileFS created.1 (metaFilePath root)
      (FileData.store { rawMeta with
        notePaths := assocSet notePaths noteId
          { (assocGet notePaths noteId).getD {} with
            dirRel := some (pathRelative root noteDir) } }),
     noteDir)

/-- `saveNoteAssetFromDataUrl`.  `decodeImage` stands for
`nativeImage.createFromDataURL` followed by the `isEmpty()` test (`none`
when the image is empty or undecodable); `toJPEG`/`toPNG` are the encoders;
`now` is `Date.now()`.  Returns the updated filesystem and `{rel, fileUrl}`
or `null`. -/
def saveNoteAssetFromDataUrl (fs : FS) (root : Path)
    (decodeImage : String → Option String) (toJPEG toPNG : String → String) (now : Nat)
    (noteId : String) (note : Note) (mimeType : String) (dataUrl : String)
    (folders : Option (List (String × Folder))) (notebooks : Option (List (String × Notebook))) :
    FS × Option (String × String) :=
  let resolved := resolveNoteDir fs root noteId note folders notebooks
  let noteDir := resolved.2
  let assetsDir := joinSeg noteDir "assets"
  let fs3 := mkdirp resolved.1 assetsDir
  let normalizedDataUrl := normalizeDataUrl dataUrl
  match decodeImage normalizedDataUrl with
  | none => (fs3, none)
  | some img =>
    let outputIsJpeg := mimeType = "image/jpeg"
    let ext := if outputIsJpeg then "jpg" else "png"
    let buffer := if outputIsJpeg then toJPEG img else toPNG img
    let fileName := "pasted-" ++ toString now ++ "." ++ ext
    let filePath := joinSeg assetsDir fileName
    let fs4 := writeFileFS fs3 filePath (FileData.text buffer)
    let rel := "assets/" ++ fileName
    (fs4, some (rel, pathToFileURL filePath))

/-! ## Concrete scenarios used by the claim theorems -/

/-- A managed root `<documents>/CurNotes`, as `getNotesRoot` computes it. -/
def exRoot : Path := ["Docs", "CurNotes"]

/-- A filesystem holding the managed root and a sibling directory whose name
extends the root's name by a suffix. -/
def fsEscape : FS :=
  { dirs := [["Docs"], ["Docs", "CurNotes"], ["Docs", "CurNotesEvil"]],
    files := [(["Docs", "CurNotesEvil", "x.txt"], FileData.text "hi")] }

/-- A snapshot with two distinct fresh notes whose titles both sanitize to
`Untitled`, assigned to the same (default) folder. -/
def twoUntitled : Snapshot :=
  { notes := [("n1", some { content := some "Untitled" }),
              ("n2", some { content := some "Untitled" })] }

/-- The Store Index entry both notes of `twoUntitled` end up with. -/
def untitledEntry : NPEntry :=
  { dirRel := some "Notebook/Untitled", htmlRel := some "Notebook/Untitled/Untitled.html",
    mdRel := none }

/-- A store whose index records note `n1` under `Notebook/Old`. -/
def driftMeta : Snapshot := { notePaths := [("n1", { dirRel := some "Notebook/Old" })] }

/-- A filesystem where `n1`'s recorded directory `Notebook/Old` exists. -/
def fsDrift : FS :=
  { dirs := [["Docs"], ["Docs", "CurNotes"], ["Docs", "CurNotes", "Notebook"],
             ["Docs", "CurNotes", "Notebook", "Old"]],
    files := [(metaFilePath exRoot, FileData.store driftMeta)] }

/-- A snapshot where `n1`'s title is now `New`, so its desired directory
drifted away from the recorded `Notebook/Old`. -/
def driftData : Snapshot := { notes := [("n1", some { content := some "New" })] }

def driftSave1 : FS × List FsOp := savePersistentState fsDrift exRoot none driftData

def driftSave2 : FS × List FsOp := savePersistentState driftSave1.1 exRoot none driftData

/-- A store recording a note `d1` (about to be deleted) and a note `v1`
that is absent from the next snapshot. -/
def delMeta : Snapshot :=
  { notePaths := [("d1", { dirRel := some "Notebook/Doomed" }),
                  ("v1", { dirRel := some "Notebook/Vanish" })] }

def fsDel : FS :=
  { dirs := [["Docs"], ["Docs", "CurNotes"], ["Docs", "CurNotes", "Notebook"],
             ["Docs", "CurNotes", "Notebook", "Doomed"],
             ["Docs", "CurNotes", "Notebook", "Vanish"]],
    files := [(metaFilePath exRoot, FileData.store delMeta)] }

/-- A snapshot containing only `d1`, flagged deleted; `v1` vanished. -/
def delData : Snapshot := { notes := [("d1", some { deleted := true })] }

def delSave : FS × List FsOp := savePersistentState fsDel exRoot none delData

/-- Folders where the assigned folder `B` (a subfolder) and the top-most
chain folder `A` belong to different notebooks. -/
def twoNbFolders : List (String × Folder) :=
  [("B", { name := "Sub", parentFolderId := some "A", notebookId := some "n2" }),
   ("A", { name := "Top", parentFolderId := none, notebookId := some "n1" })]

def twoNbNotebooks : List (String × Notebook) :=
  [("n1", { name := some "TopNB" }), ("n2", { name := some "SubNB" })]

/-! ## Helper lemmas -/

section AssocLemmas

variable {κ α : Type} [DecidableEq κ]

theorem assocGet_set_self (l : List (κ × α)) (k : κ) (v : α) :
    assocGet (assocSet l k v) k = some v := by
  induction l with
  | nil => simp [assocGet, assocSet]
  | cons e rest ih =>
    by_cases h : e.1 = k
    · simp [assocSet, h, assocGet]
    · simp [assocSet, h, assocGet, ih]

theorem assocGet_set_ne (l : List (κ × α)) (k k' : κ) (v : α) (h : k ≠ k') :
    assocGet (assocSet l k v) k' = assocGet l k' := by
  induction l with
  | nil =>
    simp only [assocSet, assocGet]
    rw [if_neg h]
  | cons e rest ih =>
    simp only [assocSet]
    by_cases he : e.1 = k
    · rw [if_pos he]
      simp only [assocGet]
      rw [if_neg h, if_neg (fun hk : e.1 = k' => h (he.symm.trans hk))]
    · rw [if_neg he]
      simp only [assocGet]
      by_cases he' : e.1 = k'
      · rw [if_pos he', if_pos he']
      · rw [if_neg he', if_neg he', ih]

theorem assocGet_del_self (l : List (κ × α)) (k : κ) :
    assocGet (assocDel l k) k = none := by
  induction l with
  | nil => simp [assocGet, assocDel]
  | cons e rest ih =>
    by_cases h : e.1 = k
    · simp [assocDel, h, ih]
    · simp [assocDel, h, assocGet, ih]

theorem assocGet_del_ne (l : List (κ × α)) (k k' : κ) (h : k ≠ k') :
    assocGet (assocDel l k) k' = assocGet l k' := by
  induction l with
  | nil => simp [assocDel]
  | cons e rest ih =>
    simp only [assocDel]
    by_cases he : e.1 = k
    · rw [if_pos he, ih]
      simp only [assocGet]
      rw [if_neg (fun hk : e.1 = k' => h (he.symm.trans hk))]
    · rw [if_neg he]
      simp only [assocGet]
      by_cases he' : e.1 = k'
      · rw [if_pos he', if_pos he']
      · rw [if_neg he', if_neg he', ih]

theorem assocGet_mem_val {l : List (κ × α)} {k : κ} {v : α}
    (h : assocGet l k = some v) : (k, v) ∈ l := by
  induction l with
  | nil => simp [assocGet] at h
  | cons e rest ih =>
    by_cases he : e.1 = k
    · simp only [assocGet, if_pos he] at h
      obtain ⟨a, b⟩ := e
      simp only at he
      injection h with h2
      rw [← he, ← h2]
      exact List.mem_cons_self _ _
    · simp only [assocGet, if_neg he] at h
      exact List.mem_cons_of_mem _ (ih h)

end AssocLemmas

section FSLemmas

theorem files_mkdirp (fs : FS) (p : Path) : (mkdirp fs p).files = fs.files := rfl

theorem files_rmdirFS (fs : FS) (p : Path) : (rmdirFS fs p).files = fs.files := rfl

theorem files_cleanupGo (stop : Path) :
    ∀ (fuel : Nat) (fs : FS) (cur : Path), (cleanupGo stop fs cur fuel).files = fs.files := by
  intro fuel
  induction fuel with
  | zero => intro fs cur; rfl
  | succ fuel ih =>
    intro fs cur
    unfold cleanupGo
    split
    · split
      · exact ih fs cur.dropLast
      · split
        · rfl
        · exact (ih _ cur.dropLast).trans (files_rmdirFS fs cur)
    · rfl

theorem files_cleanupEmptyDirs (fs : FS) (a b : Path) :
    (cleanupEmptyDirs fs a b).files = fs.files :=
  files_cleanupGo b (a.length + 1) fs a

theorem fileAt_write_self (fs : FS) (p : Path) (d : FileData) :
    fileAt (writeFileFS fs p d) p = some d :=
  assocGet_set_self fs.files p d

theorem fileAt_write_ne (fs : FS) (p q : Path) (d : FileData) (h : p ≠ q) :
    fileAt (writeFileFS fs p d) q = fileAt fs q :=
  assocGet_set_ne fs.files p q d h

theorem fileAt_mkdirp (fs : FS) (p q : Path) : fileAt (mkdirp fs p) q = fileAt fs q := rfl

theorem fileAt_some_existsSync {fs : FS} {p : Path} {d : FileData}
    (h : fileAt fs p = some d) : existsSync fs p = true := by
  have hm : (p, d) ∈ fs.files := assocGet_mem_val h
  unfold existsSync
  have : fs.files.any (fun e => e.1 == p) = true := by
    refine List.any_eq_true.mpr ⟨(p, d), hm, ?_⟩
    simp
  simp [this]

theorem isPrefixOf_self (p : Path) : p.isPrefixOf p = true :=
  List.isPrefixOf_iff_prefix.mpr (List.prefix_refl p)

theorem existsSync_rmRecursive_self (fs : FS) (p : Path) :
    existsSync (rmRecursive fs p) p = false := by
  unfold existsSync rmRecursive
  rw [Bool.or_eq_false_iff]
  refine ⟨?_, ?_⟩
  · rw [Bool.eq_false_iff]
    intro hc
    have hm : p ∈ fs.dirs.filter (fun q => !p.isPrefixOf q) := List.mem_of_elem_eq_true hc
    have h2 := (List.mem_filter.mp hm).2
    rw [isPrefixOf_self] at h2
    simp at h2
  · rw [Bool.eq_false_iff]
    intro hc
    obtain ⟨e, he, heq⟩ := List.any_eq_true.mp hc
    have h2 := (List.mem_filter.mp he).2
    have h3 : e.1 = p := by simpa using heq
    rw [h3, isPrefixOf_self] at h2
    simp at h2

end FSLemmas

section ListLemmas

variable {α : Type}

theorem dropWhile_all_append (p : α → Bool) (l1 l2 : List α) (h : l1.all p = true) :
    (l1 ++ l2).dropWhile p = l2.dropWhile p := by
  induction l1 with
  | nil => rfl
  | cons a l ih =>
    simp only [List.all_cons, Bool.and_eq_true] at h
    simp [List.dropWhile_cons, h.1, ih h.2]

theorem takeWhile_all_append (p : α → Bool) (l1 l2 : List α) (h : l1.all p = true) :
    (l1 ++ l2).takeWhile p = l1 ++ l2.takeWhile p := by
  induction l1 with
  | nil => rfl
  | cons a l ih =>
    simp only [List.all_cons, Bool.and_eq_true] at h
    simp [List.takeWhile_cons, h.1, ih h.2]

theorem dropWhile_eq_nil_of_all (p : α → Bool) (l : List α) (h : l.all p = true) :
    l.dropWhile p = [] := by
  have := dropWhile_all_append p l [] h
  simpa using this

theorem takeWhile_eq_self_of_all (p : α → Bool) (l : List α) (h : l.all p = true) :
    l.takeWhile p = l := by
  have := takeWhile_all_append p l [] h
  simpa using this

theorem dropWhile_eq_self_of_head (p : α → Bool) (l : List α)
    (h : l.head?.all (fun c => !p c) = true) : l.dropWhile p = l := by
  cases l with
  | nil => rfl
  | cons a t =>
    simp only [List.head?_cons, Option.all_some, Bool.not_eq_true'] at h
    simp [List.dropWhile_cons, h]

theorem dropWhile_dropWhile (p : α → Bool) (l : List α) :
    (l.dropWhile p).dropWhile p = l.dropWhile p := by
  induction l with
  | nil => rfl
  | cons a t ih =>
    by_cases h : p a
    · simp [List.dropWhile_cons, h, ih]
    · simp [List.dropWhile_cons, h]

end ListLemmas

theorem stringMk_cons_ne_empty (c : Char) (l : List Char) : String.mk (c :: l) ≠ "" := by
  intro h
  have h2 : c :: l = ([] : List Char) := congrArg String.data h
  cases h2

theorem fileAt_congr {fs1 fs2 : FS} (h : fs1.files = fs2.files) (p : Path) :
    fileAt fs1 p = fileAt fs2 p := by
  unfold fileAt
  rw [h]

theorem files_getOrCreateNoteDir (fs : FS) (root : Path) (F : List (String × Folder))
    (N : List (String × Notebook)) (note : Note) :
    (getOrCreateNoteDir fs root F N note).1.files = fs.files := by
  simp only [getOrCreateNoteDir, files_mkdirp]

theorem fileAt_writeJsonFileFS_ne (fs : FS) (p q : Path) (d : FileData) (h : p ≠ q) :
    fileAt (writeJsonFileFS fs p d) q = fileAt fs q := by
  unfold writeJsonFileFS
  rw [fileAt_write_ne _ _ _ _ h]
  exact fileAt_mkdirp _ _ _

theorem fileAt_resolveNoteDir_ne (fs : FS) (root : Path) (noteId : String) (note : Note)
    (folders : Option (List (String × Folder))) (notebooks : Option (List (String × Notebook)))
    (p : Path) (hp : p ≠ metaFilePath root) :
    fileAt (resolveNoteDir fs root noteId note folders notebooks).1 p = fileAt fs p := by
  unfold resolveNoteDir
  cases hE : jsTruthyOpt ((assocGet ((readStoreFile (mkdirp fs root) (metaFilePath root)).getD
      {}).notePaths noteId).bind (fun e => e.dirRel)) with
  | some r => exact fileAt_mkdirp _ _ _
  | none =>
    rw [fileAt_writeJsonFileFS_ne _ _ _ _ (fun hh => hp hh.symm)]
    exact (fileAt_congr (files_getOrCreateNoteDir _ _ _ _ _) p).trans (fileAt_mkdirp _ _ _)

theorem safeName_ne_empty (s fb : String) (h : fb ≠ "") : safeName s fb ≠ "" := by
  unfold safeName
  by_cases h0 : sanitizeFilename (jsTrim s) = ""
  · simp only [h0, if_pos]
    split <;> exact h
  · simp only [h0, if_neg, ite_false]
    split <;> [exact h0; exact h]

theorem length_filter_mono {α : Type} (p q : α → Bool) (l : List α)
    (h : ∀ x, p x = true → q x = true) :
    (l.filter p).length ≤ (l.filter q).length := by
  induction l with
  | nil => simp
  | cons a t ih =>
    by_cases hp : p a = true
    · rw [List.filter_cons_of_pos hp, List.filter_cons_of_pos (h a hp)]
      simpa using ih
    · rw [List.filter_cons_of_neg (by simpa using hp)]
      by_cases hq : q a = true
      · rw [List.filter_cons_of_pos hq]
        simp only [List.length_cons]
        omega
      · rw [List.filter_cons_of_neg (by simpa using hq)]
        exact ih

theorem countFree_decrease (keys seen : List String) (k : String)
    (hk : k ∈ keys) (hs : seen.contains k = false) :
    (keys.filter (fun x => !(seen ++ [k]).contains x)).length + 1
      ≤ (keys.filter (fun x => !seen.contains x)).length := by
  have hmono : ∀ x, (!(seen ++ [k]).contains x) = true → (!seen.contains x) = true := by
    intro x hx
    simp at hx ⊢
    tauto
  have hknotseen : k ∉ seen := by simpa using hs
  induction keys with
  | nil => cases hk
  | cons a keys ih =>
    rcases List.mem_cons.mp hk with rfl | hk2
    · rw [List.filter_cons_of_neg (by simp), List.filter_cons_of_pos (by simp [hknotseen])]
      have := length_filter_mono _ _ keys hmono
      simp only [List.length_cons]
      omega
    · by_cases hmem : a ∈ seen
      · rw [List.filter_cons_of_neg (by simp [hmem]), List.filter_cons_of_neg (by simp [hmem])]
        exact ih hk2
      · by_cases hak : a = k
        · subst hak
          rw [List.filter_cons_of_neg (by simp), List.filter_cons_of_pos (by simp [hmem])]
          have := ih hk2
          simp only [List.length_cons]
          omega
        · rw [List.filter_cons_of_pos (by simp [hmem, hak]),
            List.filter_cons_of_pos (by simp [hmem])]
          have := ih hk2
          simp only [List.length_cons]
          omega

theorem mapHas_mem_keys {α : Type} {l : List (String × α)} {k : String}
    (h : mapHas l k = true) : k ∈ l.map Prod.fst := by
  unfold mapHas at h
  obtain ⟨e, he, heq⟩ := List.any_eq_true.mp h
  have h2 : e.1 = k := by simpa using heq
  exact h2 ▸ List.mem_map.mpr ⟨e, he, rfl⟩

theorem buildFolderGo_length (F : List (String × Folder)) :
    ∀ (fuel : Nat) (cur : Option String) (seen : List String),
      (buildFolderGo F cur seen fuel).length
        ≤ ((F.map Prod.fst).filter (fun x => !seen.contains x)).length := by
  intro fuel
  induction fuel with
  | zero => intro cur seen; simp [buildFolderGo]
  | succ fuel ih =>
    intro cur seen
    unfold buildFolderGo
    split
    next => simp
    next k heq =>
      split
      next hcond =>
        split
        next folder hm =>
          rw [List.length_append]
          have h1 := ih (jsTruthyOpt folder.parentFolderId) (seen ++ [k])
          have h2 : k ∈ F.map Prod.fst := mapHas_mem_keys hcond.1
          have h3 : seen.contains k = false := by
            have := hcond.2
            simpa [Bool.not_eq_true] using this
          have h4 := countFree_decrease (F.map Prod.fst) seen k h2 h3
          simp only [List.length_cons, List.length_nil]
          omega
        next => simp
      next => simp

theorem buildFolderGo_ne_empty (F : List (String × Folder)) :
    ∀ (fuel : Nat) (cur : Option String) (seen : List String) (s : String),
      s ∈ buildFolderGo F cur seen fuel → s ≠ "" := by
  intro fuel
  induction fuel with
  | zero => intro cur seen s h; simp [buildFolderGo] at h
  | succ fuel ih =>
    intro cur seen s h
    unfold buildFolderGo at h
    split at h
    next => simp at h
    next k heq =>
      split at h
      next hcond =>
        split at h
        next folder hm =>
          rcases List.mem_append.mp h with h1 | h1
          · exact ih (jsTruthyOpt folder.parentFolderId) (seen ++ [k]) s h1
          · have h2 : s = safeName folder.name "Folder" := by simpa using h1
            rw [h2]
            exact safeName_ne_empty _ _ (by decide)
        next => simp at h
      next => simp at h

theorem toList_mk (l : List Char) : (String.mk l).toList = l := rfl

theorem string_fallback_ne_empty (t2 : String) :
    (if t2 = "" then "New Note" else t2) ≠ "" := by
  by_cases h : t2 = ""
  · rw [if_pos h]; decide
  · rw [if_neg h]; exact h

theorem noteTitle_ne_empty (c : Option String) : noteTitleFromContent c ≠ "" := by
  simp only [noteTitleFromContent]
  exact string_fallback_ne_empty _

theorem noteTitle_all_ws (s : String) (h : s.toList.all jsWhitespace = true) :
    noteTitleFromContent (some s) = "New Note" := by
  simp only [noteTitleFromContent, Option.getD_some]
  rw [dropWhile_eq_nil_of_all _ _ h]
  decide

theorem noteTitle_ws_prefix (pre t : List Char) (h : pre.all jsWhitespace = true) :
    noteTitleFromContent (some (String.mk (pre ++ t)))
      = noteTitleFromContent (some (String.mk t)) := by
  simp only [noteTitleFromContent, Option.getD_some, toList_mk]
  rw [dropWhile_all_append _ _ _ h]

theorem noteTitle_trimmed_line (c : Char) (t' : List Char)
    (hw : jsWhitespace c = false) (hh : c ≠ '#')
    (hnl : ∀ x ∈ c :: t', x ≠ '\n' ∧ x ≠ '\r')
    (hlast : (c :: t').getLast?.all (fun x => !jsWhitespace x) = true)
    (hlen : (c :: t').length ≤ 64) :
    noteTitleFromContent (some (String.mk (c :: t'))) = String.mk (c :: t') := by
  have hdfront : (c :: t').dropWhile jsWhitespace = c :: t' :=
    dropWhile_eq_self_of_head _ _ (by simp [hw])
  have hdback : (c :: t').reverse.dropWhile jsWhitespace = (c :: t').reverse :=
    dropWhile_eq_self_of_head _ _ (by rw [List.head?_reverse]; simpa using hlast)
  have hnlAll : (c :: t').all (fun x => decide (x ≠ '\n' ∧ x ≠ '\r')) = true :=
    List.all_eq_true.mpr (fun x hx => decide_eq_true (hnl x hx))
  have htrim : jsTrim (String.mk (c :: t')) = String.mk (c :: t') := by
    simp only [jsTrim, jsTrimList, toList_mk]
    rw [hdfront, hdback, List.reverse_reverse]
  simp only [noteTitleFromContent, Option.getD_some, toList_mk]
  rw [hdfront, takeWhile_eq_self_of_all _ _ hnlAll, List.take_of_length_le hlen, htrim]
  rw [if_neg (stringMk_cons_ne_empty c t')]
  have hstrip : stripHeading (String.mk (c :: t')) = String.mk (c :: t') := by
    simp only [stripHeading, toList_mk]
    rw [hdfront]
    rw [if_neg]
    intro hcond
    have h1 := hcond.1
    rw [List.takeWhile_cons, if_neg (by simpa using hh)] at h1
    simp at h1
  rw [hstrip, htrim, if_neg (stringMk_cons_ne_empty c t')]

theorem noteTitle_heading (n : Nat) (c : Char) (t' : List Char)
    (hn1 : 1 ≤ n) (hn6 : n ≤ 6)
    (hw : jsWhitespace c = false)
    (hnl : ∀ x ∈ c :: t', x ≠ '\n' ∧ x ≠ '\r')
    (hlast : (c :: t').getLast?.all (fun x => !jsWhitespace x) = true)
    (hlen : n + 1 + (c :: t').length ≤ 64) :
    noteTitleFromContent (some (String.mk (List.replicate n '#' ++ ' ' :: c :: t')))
      = String.mk (c :: t') := by
  obtain ⟨m, rfl⟩ : ∃ m, n = m + 1 := ⟨n - 1, by omega⟩
  have hdfrontT : (c :: t').dropWhile jsWhitespace = c :: t' :=
    dropWhile_eq_self_of_head _ _ (by simp [hw])
  have hdbackT : (c :: t').reverse.dropWhile jsWhitespace = (c :: t').reverse :=
    dropWhile_eq_self_of_head _ _ (by rw [List.head?_reverse]; simpa using hlast)
  have htrimT : jsTrim (String.mk (c :: t')) = String.mk (c :: t') := by
    simp only [jsTrim, jsTrimList, toList_mk]
    rw [hdfrontT, hdbackT, List.reverse_reverse]
  have hsfront : (List.replicate (m + 1) '#' ++ ' ' :: c :: t').dropWhile jsWhitespace
      = List.replicate (m + 1) '#' ++ ' ' :: c :: t' := by
    refine dropWhile_eq_self_of_head _ _ ?_
    rw [List.replicate_succ, List.cons_append, List.head?_cons]
    decide
  have hsback : (List.replicate (m + 1) '#' ++ ' ' :: c :: t').reverse.dropWhile jsWhitespace
      = (List.replicate (m + 1) '#' ++ ' ' :: c :: t').reverse := by
    refine dropWhile_eq_self_of_head _ _ ?_
    rw [List.head?_reverse, List.getLast?_append_cons, List.getLast?_cons_cons]
    exact hlast
  have hnlAll : (List.replicate (m + 1) '#' ++ ' ' :: c :: t').all
      (fun x => decide (x ≠ '\n' ∧ x ≠ '\r')) = true := by
    rw [List.all_append, Bool.and_eq_true]
    refine ⟨?_, ?_⟩
    · exact List.all_eq_true.mpr (fun x hx => by
        rw [List.eq_of_mem_replicate hx]; decide)
    · refine List.all_eq_true.mpr ?_
      intro x hx
      rcases List.mem_cons.mp hx with rfl | hx2
      · decide
      · exact decide_eq_true (hnl x hx2)
  have hlen2 : (List.replicate (m + 1) '#' ++ ' ' :: c :: t').length ≤ 64 := by
    rw [List.length_append, List.length_replicate]
    simp only [List.length_cons] at hlen ⊢
    omega
  have htrimS : jsTrim (String.mk (List.replicate (m + 1) '#' ++ ' ' :: c :: t'))
      = String.mk (List.replicate (m + 1) '#' ++ ' ' :: c :: t') := by
    simp only [jsTrim, jsTrimList, toList_mk]
    rw [hsfront, hsback, List.reverse_reverse]
  have hne : String.mk (List.replicate (m + 1) '#' ++ ' ' :: c :: t') ≠ "" := by
    rw [List.replicate_succ, List.cons_append]
    exact stringMk_cons_ne_empty _ _
  have hrepAll : (List.replicate (m + 1) '#').all (fun x => decide (x = '#')) = true :=
    List.all_eq_true.mpr (fun x hx => by rw [List.eq_of_mem_replicate hx]; decide)
  have hstrip : stripHeading (String.mk (List.replicate (m + 1) '#' ++ ' ' :: c :: t'))
      = String.mk (c :: t') := by
    simp only [stripHeading, toList_mk]
    rw [hsfront]
    have htake : List.takeWhile (fun x => decide (x = '#')) (' ' :: c :: t') = [] := by
      rw [List.takeWhile_cons, if_neg (by decide : ¬(decide (' ' = '#') = true))]
    have hdrop : List.dropWhile (fun x => decide (x = '#')) (' ' :: c :: t') = ' ' :: c :: t' := by
      rw [List.dropWhile_cons, if_neg (by decide : ¬(decide (' ' = '#') = true))]
    rw [takeWhile_all_append _ _ _ hrepAll, htake, List.append_nil]
    rw [dropWhile_all_append _ _ _ hrepAll, hdrop]
    rw [if_pos ⟨by rw [List.length_replicate]; omega,
      by rw [List.length_replicate]; omega,
      by rw [List.head?_cons]; decide⟩]
    rw [List.dropWhile_cons, if_pos (by decide : jsWhitespace ' ' = true), hdfrontT]
  simp only [noteTitleFromContent, Option.getD_some, toList_mk]
  rw [hsfront, takeWhile_eq_self_of_all _ _ hnlAll, List.take_of_length_le hlen2, htrimS]
  rw [if_neg hne, hstrip, htrimT, if_neg (stringMk_cons_ne_empty c t')]

theorem assocGet_append {κ α : Type} [DecidableEq κ] (a b : List (κ × α)) (k : κ) :
    assocGet (a ++ b) k = (assocGet a k <|> assocGet b k) := by
  induction a with
  | nil => simp [assocGet]
  | cons e rest ih =>
    by_cases he : e.1 = k
    · simp [assocGet, he]
    · simp [assocGet, he, ih]

theorem assocGet_foldl_set {α : Type} (l : List (String × α)) (k : String) :
    ∀ (m : List (String × α)),
      assocGet (l.foldl (fun acc e => assocSet acc e.1 e.2) m) k
        = (assocGet l.reverse k <|> assocGet m k) := by
  induction l with
  | nil => intro m; simp [assocGet]
  | cons e rest ih =>
    intro m
    rw [List.foldl_cons, ih, List.reverse_cons, assocGet_append]
    by_cases he : e.1 = k
    · cases hr : assocGet rest.reverse k with
      | some v => simp [hr]
      | none =>
        simp only [hr, Option.none_orElse]
        rw [← he, assocGet_set_self]
        simp [assocGet, he]
    · rw [assocGet_set_ne _ _ _ _ he]
      cases hr : assocGet rest.reverse k with
      | some v => simp [hr]
      | none => simp [hr, assocGet, he]

theorem assocGet_jsMapOfEntries {α : Type} (l : List (String × α)) (k : String) :
    assocGet (jsMapOfEntries l) k = assocGet l.reverse k := by
  unfold jsMapOfEntries
  rw [assocGet_foldl_set]
  cases hr : assocGet l.reverse k <;> simp [hr, assocGet]

theorem hydrateNote_fst (fs : FS) (root : Path) (notePaths : List (String × NPEntry))
    (conv : Option (String → String)) (e : String × Option Note) :
    (hydrateNote fs root notePaths conv e).1 = e.1 := by
  simp only [hydrateNote]
  cases hf : (jsTruthyOpt ((assocGet notePaths e.1).bind (fun p => p.htmlRel))
      <|> jsTruthyOpt ((assocGet notePaths e.1).bind (fun p => p.mdRel))) with
  | none => rfl
  | some rel =>
    simp only [Option.map_some']
    by_cases he : existsSync fs (pathJoin root rel) = true
    · rw [if_pos he]
      cases hr : fileAt fs (pathJoin root rel) with
      | none => rfl
      | some d => cases d <;> rfl
    · rw [if_neg he]

theorem hydrateNote_no_entry (fs : FS) (root : Path) (notePaths : List (String × NPEntry))
    (conv : Option (String → String)) (e : String × Option Note)
    (h : assocGet notePaths e.1 = none) :
    hydrateNote fs root notePaths conv e = e := by
  simp only [hydrateNote, h]
  rfl

theorem saveOneNote_deleted (root : Path) (F : List (String × Folder))
    (N : List (String × Notebook)) (conv : Option (String → String))
    (prevNP : List (String × NPEntry)) (st : SaveSt) (nid : String) (n : Note)
    (hdel : n.deleted = true) :
    saveOneNote root F N conv prevNP st (nid, some n)
      = { fs := (safeRmDir st.fs root ((assocGet prevNP nid).bind (fun e => e.dirRel))).1,
          np := assocDel st.np nid, active := st.active,
          trace := st.trace
            ++ (safeRmDir st.fs root ((assocGet prevNP nid).bind (fun e => e.dirRel))).2 } := by
  simp only [saveOneNote, hdel, if_true]

theorem saveOneNote_np_ne (root : Path) (F : List (String × Folder))
    (N : List (String × Notebook)) (conv : Option (String → String))
    (prevNP : List (String × NPEntry)) (st : SaveSt) (e : String × Option Note) (k : String)
    (h : e.1 ≠ k) :
    assocGet (saveOneNote root F N conv prevNP st e).np k = assocGet st.np k := by
  obtain ⟨id, note?⟩ := e
  have hid : id ≠ k := h
  cases note? with
  | none => rfl
  | some note =>
    by_cases hd : note.deleted = true
    · simp only [saveOneNote, hd, if_true]
      exact assocGet_del_ne _ _ _ hid
    · have hd2 : note.deleted = false := by simpa using hd
      cases hP : jsTruthyOpt ((assocGet prevNP id).bind (fun x => x.dirRel)) with
      | none =>
        simp only [saveOneNote, hd2, Bool.false_eq_true, if_false, hP]
        exact assocGet_set_ne _ _ _ _ hid
      | some r =>
        simp only [saveOneNote, hd2, Bool.false_eq_true, if_false, hP]
        by_cases hdr : existsSync (getOrCreateNoteDir st.fs root F N note).1 (pathJoin root r)
            = true ∧ pathResolve (pathJoin root r)
            ≠ pathResolve (getOrCreateNoteDir st.fs root F N note).2.noteDir
        · rw [if_pos hdr]
          exact assocGet_set_ne _ _ _ _ hid
        · rw [if_neg hdr]
          exact assocGet_set_ne _ _ _ _ hid

theorem saveOneNote_np_none (root : Path) (F : List (String × Folder))
    (N : List (String × Notebook)) (conv : Option (String → String))
    (prevNP : List (String × NPEntry)) (st : SaveSt) (e : String × Option Note) (k : String)
    (hz : assocGet st.np k = none)
    (hall : e.1 = k → ∀ n, e.2 = some n → n.deleted = true) :
    assocGet (saveOneNote root F N conv prevNP st e).np k = none := by
  obtain ⟨id, note?⟩ := e
  by_cases he : id = k
  · subst he
    cases note? with
    | none => exact hz
    | some n =>
      have hd : n.deleted = true := hall rfl n rfl
      rw [saveOneNote_deleted root F N conv prevNP st id n hd]
      exact assocGet_del_self _ _
  · rw [saveOneNote_np_ne root F N conv prevNP st (id, note?) k he]
    exact hz

theorem foldl_saveOneNote_np_none (root : Path) (F : List (String × Folder))
    (N : List (String × Notebook)) (conv : Option (String → String))
    (prevNP : List (String × NPEntry)) (k : String) :
    ∀ (l : List (String × Option Note)) (st : SaveSt),
      (∀ p ∈ l, p.1 = k → ∀ n, p.2 = some n → n.deleted = true) →
      ((∃ p ∈ l, p.1 = k ∧ ∃ n, p.2 = some n) ∨ assocGet st.np k = none) →
      assocGet (l.foldl (saveOneNote root F N conv prevNP) st).np k = none := by
  intro l
  induction l with
  | nil =>
    intro st _ hd
    rcases hd with ⟨p, hp, _⟩ | hz
    · cases hp
    · exact hz
  | cons e l ih =>
    intro st hall hd
    rw [List.foldl_cons]
    by_cases he : e.1 = k
    · cases hn : e.2 with
      | some n =>
        refine ih _ (fun p hp => hall p (List.mem_cons_of_mem _ hp)) (Or.inr ?_)
        obtain ⟨id, note?⟩ := e
        have hd2 : n.deleted = true := hall (id, note?) (List.mem_cons_self _ _) he n hn
        simp only at hn he
        rw [hn, he]
        rw [saveOneNote_deleted root F N conv prevNP st k n hd2]
        exact assocGet_del_self _ _
      | none =>
        refine ih _ (fun p hp => hall p (List.mem_cons_of_mem _ hp)) ?_
        rcases hd with ⟨p, hp, hpk, n2, hpn⟩ | hz
        · rcases List.mem_cons.mp hp with rfl | hp2
          · rw [hn] at hpn
            cases hpn
          · exact Or.inl ⟨p, hp2, hpk, n2, hpn⟩
        · refine Or.inr ?_
          obtain ⟨id, note?⟩ := e
          simp only at hn
          rw [hn]
          exact hz
    · refine ih _ (fun p hp => hall p (List.mem_cons_of_mem _ hp)) ?_
      rcases hd with ⟨p, hp, hpk, n2, hpn⟩ | hz
      · rcases List.mem_cons.mp hp with rfl | hp2
        · exact absurd hpk he
        · exact Or.inl ⟨p, hp2, hpk, n2, hpn⟩
      · refine Or.inr ?_
        rw [saveOneNote_np_ne root F N conv prevNP st e k he]
        exact hz

theorem foldl_saveOneNote_np_pres (root : Path) (F : List (String × Folder))
    (N : List (String × Notebook)) (conv : Option (String → String))
    (prevNP : List (String × NPEntry)) (k : String) :
    ∀ (l : List (String × Option Note)) (st : SaveSt),
      (∀ p ∈ l, p.1 ≠ k) →
      assocGet (l.foldl (saveOneNote root F N conv prevNP) st).np k = assocGet st.np k := by
  intro l
  induction l with
  | nil => intro st _; rfl
  | cons e l ih =>
    intro st hall
    rw [List.foldl_cons, ih _ (fun p hp => hall p (List.mem_cons_of_mem _ hp))]
    exact saveOneNote_np_ne root F N conv prevNP st e k (hall e (List.mem_cons_self _ _))

theorem foldl_cleanupVanished_np_none (root : Path) (prevNP : List (String × NPEntry))
    (k : String) :
    ∀ (l : List (String × NPEntry)) (st : SaveSt),
      assocGet st.np k = none →
      assocGet (l.foldl (cleanupVanished root prevNP) st).np k = none := by
  intro l
  induction l with
  | nil => intro st hz; exact hz
  | cons kv l ih =>
    intro st hz
    rw [List.foldl_cons]
    refine ih _ ?_
    unfold cleanupVanished
    split
    · by_cases hk : kv.1 = k
      · rw [hk]
        exact assocGet_del_self _ _
      · rw [assocGet_del_ne _ _ _ hk]
        exact hz
    · exact hz

theorem foldl_cleanupVanished_np_some (root : Path) (prevNP : List (String × NPEntry))
    (k : String) (e : NPEntry) :
    ∀ (l : List (String × NPEntry)) (st : SaveSt),
      assocGet st.np k = some e →
      assocGet (l.foldl (cleanupVanished root prevNP) st).np k = some e := by
  intro l
  induction l with
  | nil => intro st hz; exact hz
  | cons kv l ih =>
    intro st hz
    rw [List.foldl_cons]
    refine ih _ ?_
    unfold cleanupVanished
    by_cases hk : kv.1 = k
    · rw [if_neg]
      · exact hz
      · intro hc
        rw [hk, hz] at hc
        cases hc.2
    · split
      · rw [assocGet_del_ne _ _ _ hk]
        exact hz
      · exact hz

theorem readStore_write_cleanup (fs : FS) (p a b : Path) (m : Snapshot) :
    readStoreFile (cleanupEmptyDirs (writeJsonFileFS fs p (FileData.store m)) a b) p = some m := by
  unfold readStoreFile
  rw [fileAt_congr (files_cleanupEmptyDirs _ a b) p]
  rw [show fileAt (writeJsonFileFS fs p (FileData.store m)) p = some (FileData.store m) from
    fileAt_write_self _ _ _]

theorem uniqueFrom_eq_first (fs : FS) (parent : Path) (base : String) :
    ∀ (fuel i j : Nat), i ≤ j → j < i + fuel →
      (∀ k, i ≤ k → k < j → existsSync fs (suffixCand parent base k) = true) →
      existsSync fs (suffixCand parent base j) = false →
      uniqueFrom fs parent base i fuel = some (suffixCand parent base j) := by
  intro fuel
  induction fuel with
  | zero =>
    intro i j hij hlt
    omega
  | succ fuel ih =>
    intro i j hij hlt hall hj
    unfold uniqueFrom
    rcases Nat.eq_or_lt_of_le hij with rfl | hlt2
    · rw [hj]
      simp
    · rw [hall i le_rfl hlt2]
      simp only [if_true]
      exact ih (i + 1) j hlt2 (by omega) (fun k hk1 hk2 => hall k (by omega) hk2) hj

theorem uniqueFrom_eq_none (fs : FS) (parent : Path) (base : String) :
    ∀ (fuel i : Nat),
      (∀ k, i ≤ k → k < i + fuel → existsSync fs (suffixCand parent base k) = true) →
      uniqueFrom fs parent base i fuel = none := by
  intro fuel
  induction fuel with
  | zero => intro i _; rfl
  | succ fuel ih =>
    intro i hall
    unfold uniqueFrom
    rw [hall i le_rfl (by omega)]
    simp only [if_true]
    exact ih (i + 1) (fun k hk1 hk2 => hall k (by omega) (by omega))

/-! ## Claim theorems -/

/-- Claim C1: the spec says a crafted store-index entry whose computed
absolute path escapes the managed root is never deleted by `safeRmDir`.
The code's guard is the string-prefix test `full.startsWith(root)`, which
also accepts sibling directories whose name extends the root's last
segment: for `dirRel = "../CurNotesEvil"` the computed path
`/Docs/CurNotesEvil` lies outside the root `/Docs/CurNotes` (it is not a
path-prefix extension of it), yet `safeRmDir` removes it. -/
theorem C1_safeRmDir_deletes_escaped_sibling :
    List.isPrefixOf exRoot (pathJoin exRoot "../CurNotesEvil") = false
    ∧ existsSync fsEscape (pathJoin exRoot "../CurNotesEvil") = true
    ∧ (safeRmDir fsEscape exRoot (some "../CurNotesEvil")).2
        = [FsOp.remove ["Docs", "CurNotesEvil"]]
    ∧ existsSync (safeRmDir fsEscape exRoot (some "../CurNotesEvil")).1
        (pathJoin exRoot "../CurNotesEvil") = false := by
  decide

/-- Claim C2: the spec says two fresh notes whose titles sanitize to the
same string resolve to `Untitled/` and `Untitled (2)/`.  In the code the
numbered-suffix logic only runs on the drift/rename branch, and
`getOrCreateNoteDir` simply ensures (and reuses) the desired directory, so
both fresh notes are recorded under the same `Notebook/Untitled` directory
and the same `Untitled.html` content file, the second write overwriting the
first. -/
theorem C2_fresh_same_title_notes_share_directory :
    (readStoreFile (savePersistentState {} exRoot none twoUntitled).1 (metaFilePath exRoot)).map
        (fun m => m.notePaths)
      = some [("n1", untitledEntry), ("n2", untitledEntry)]
    ∧ (savePersistentState {} exRoot none twoUntitled).2 = [] := by
  decide

/-- Claim C8: the spec says a second save of an unchanged snapshot performs
no rename and writes an identical store index.  When the first save
reconciled a drifted note, the recorded directory was `Notebook/New (2)`
(the desired directory always exists at rename time, having just been
created by `getOrCreateNoteDir`), so the second save drifts again and
renames to `Notebook/New (3)`, changing the index. -/
theorem C8_second_save_renames_again :
    driftSave1.2 = [FsOp.rename ["Docs", "CurNotes", "Notebook", "Old"]
        ["Docs", "CurNotes", "Notebook", "New (2)"]]
    ∧ driftSave2.2 = [FsOp.rename ["Docs", "CurNotes", "Notebook", "New (2)"]
        ["Docs", "CurNotes", "Notebook", "New (3)"]]
    ∧ (readStoreFile driftSave2.1 (metaFilePath exRoot)).map (fun m => m.notePaths)
      ≠ (readStoreFile driftSave1.1 (metaFilePath exRoot)).map (fun m => m.notePaths) := by
  decide

set_option maxHeartbeats 2000000 in
/-- Claim C3: on drift (the recorded previous directory exists and resolves
differently from the desired directory) the reconciler performs exactly one
rename of the previous directory onto `ensureUniqueDirPath`'s choice, and
that choice is: the desired path itself when it does not exist; otherwise
the first candidate `<desired> (j)` (for `2 ≤ j < 500`) that does not
exist; and the original (possibly colliding) desired path when every
candidate exists. -/
theorem C3_drift_renames_onto_unique_target :
    (∀ (fs : FS) (d : Path), existsSync fs d = false → ensureUniqueDirPath fs d = d)
    ∧ (∀ (fs : FS) (d : Path) (j : Nat), 2 ≤ j → j < 500 → existsSync fs d = true →
        (∀ k, 2 ≤ k → k < j → existsSync fs (suffixCand d.dropLast (lastSeg d) k) = true) →
        existsSync fs (suffixCand d.dropLast (lastSeg d) j) = false →
        ensureUniqueDirPath fs d = suffixCand d.dropLast (lastSeg d) j)
    ∧ (∀ (fs : FS) (d : Path), existsSync fs d = true →
        (∀ k, 2 ≤ k → k < 500 → existsSync fs (suffixCand d.dropLast (lastSeg d) k) = true) →
        ensureUniqueDirPath fs d = d)
    ∧ (∀ (root : Path) (F : List (String × Folder)) (N : List (String × Notebook))
        (conv : Option (String → String)) (prevNP : List (String × NPEntry)) (st : SaveSt)
        (noteId : String) (note : Note) (r : String) (target : Path),
        note.deleted = false →
        jsTruthyOpt ((assocGet prevNP noteId).bind (fun e => e.dirRel)) = some r →
        existsSync (getOrCreateNoteDir st.fs root F N note).1 (pathJoin root r) = true →
        pathJoin root r ≠ (getOrCreateNoteDir st.fs root F N note).2.noteDir →
        target = ensureUniqueDirPath
            (mkdirp (getOrCreateNoteDir st.fs root F N note).1
              (getOrCreateNoteDir st.fs root F N note).2.noteDir.dropLast)
            (getOrCreateNoteDir st.fs root F N note).2.noteDir →
        (saveOneNote root F N conv prevNP st (noteId, some note)).trace
            = st.trace ++ [FsOp.rename (pathJoin root r) target]
        ∧ assocGet (saveOneNote root F N conv prevNP st (noteId, some note)).np noteId
            = some { dirRel := some (pathRelative root target),
                     htmlRel := some (pathRelative root (joinSeg target (lastSeg target ++ ".html"))),
                     mdRel := none }) := by
  refine ⟨?_, ?_, ?_, ?_⟩
  · intro fs d h
    unfold ensureUniqueDirPath
    rw [h]
    simp
  · intro fs d j hj2 hj500 hd hall hj
    unfold ensureUniqueDirPath
    rw [hd]
    simp only [if_true]
    rw [uniqueFrom_eq_first fs d.dropLast (lastSeg d) 498 2 j hj2 (by omega) hall hj]
  · intro fs d hd hall
    unfold ensureUniqueDirPath
    rw [hd]
    simp only [if_true]
    rw [uniqueFrom_eq_none fs d.dropLast (lastSeg d) 498 2
      (fun k hk1 hk2 => hall k hk1 (by omega))]
  · intro root F N conv prevNP st noteId note r target hdel hp hex hne htarget
    unfold saveOneNote
    simp only [hdel, Bool.false_eq_true, if_false, hp]
    rw [if_pos ⟨hex, hne⟩]
    rw [htarget]
    exact ⟨rfl, assocGet_set_self _ _ _⟩

set_option maxHeartbeats 2000000 in
/-- Witness for C3: a concrete drifted note.  The recorded directory
`Notebook/A` exists, the desired directory `Notebook/B` (just created by
`getOrCreateNoteDir`) differs, and the reconciliation renames onto the
first free candidate `Notebook/B (2)`. -/
theorem C3_drift_renames_onto_unique_target_witness :
    (existsSync ({ dirs := [["R", "Notebook", "B"]], files := [] } : FS)
        (suffixCand ["R", "Notebook"] "B" 2) = false
      ∧ ensureUniqueDirPath ({ dirs := [["R", "Notebook", "B"]], files := [] } : FS)
          ["R", "Notebook", "B"] = suffixCand ["R", "Notebook"] "B" 2)
    ∧ ((saveOneNote ["R"] [] [] none [("n", { dirRel := some "Notebook/A" })]
          { fs := { dirs := [["R"], ["R", "Notebook"], ["R", "Notebook", "A"]], files := [] },
            np := [], active := [], trace := [] } ("n", some { content := some "B" })).trace
        = [] ++ [FsOp.rename (pathJoin ["R"] "Notebook/A") ["R", "Notebook", "B (2)"]]) := by
  refine ⟨⟨by decide, ?_⟩, ?_⟩
  · exact C3_drift_renames_onto_unique_target.2.1 _ _ 2 (by decide) (by decide) (by decide)
      (fun k hk1 hk2 => by omega) (by decide)
  · exact (C3_drift_renames_onto_unique_target.2.2.2 ["R"] [] [] none
      [("n", { dirRel := some "Notebook/A" })]
      { fs := { dirs := [["R"], ["R", "Notebook"], ["R", "Notebook", "A"]], files := [] },
        np := [], active := [], trace := [] } "n" { content := some "B" } "Notebook/A"
      ["R", "Notebook", "B (2)"] (by decide) (by decide) (by decide) (by decide) (by decide)).1

/-- Claim C4, counterexample: `buildFolderPath` resolves the owning notebook
from the note's assigned folder (`folders.get(folderId)`), not from the
top-most folder of the parent chain.  With the assigned subfolder `B` in
notebook `SubNB` and its root ancestor `A` in notebook `TopNB`, the first
segment is `SubNB`, not the top-most folder's `TopNB`. -/
theorem C4_notebook_from_assigned_folder_cex :
    buildFolderPath twoNbFolders twoNbNotebooks (some "B") = ["SubNB", "Top", "Sub"]
    ∧ (mapGet twoNbFolders "A").map (fun f => f.parentFolderId) = some none
    ∧ (mapGet twoNbFolders "B").map (fun f => f.parentFolderId) = some (some "A")
    ∧ safeName (((mapGet twoNbNotebooks "n1").bind (fun n => n.name)).getD "Notebook") "Notebook"
        = "TopNB"
    ∧ ("SubNB" : String) ≠ "TopNB" := by
  decide

set_option maxHeartbeats 4000000 in
/-- Claim C4 (amended): `buildFolderPath` is a pure function of its snapshot
inputs whose result is never empty: the first segment is the sanitized name
of the notebook resolved from the note's **assigned** folder
(`folders.get(folderId)`), with the default `"Notebook"` when the note has
no folder, the folder is unknown, or it names no known notebook; the
remaining segments are the parent-chain walk's sanitized folder names, the
walk stopping at the root or upon revisiting a folder (the seen-set bounds
the whole result by one segment per folder entry plus the notebook); and
every returned segment is non-empty. -/
theorem C4_buildFolderPath_amended :
    ∀ (F : List (String × Folder)) (N : List (String × Notebook)) (folderId : Option String),
      buildFolderPath F N folderId ≠ []
      ∧ (buildFolderPath F N folderId).head? = some (safeName
          ((((jsTruthyOpt ((match jsTruthyOpt folderId with
                  | some fid => if mapHas F fid then mapGet F fid else none
                  | none => none).bind (fun f => f.notebookId))).bind
              (fun nid => if mapHas N nid then mapGet N nid else none)).bind
            (fun nb => nb.name)).getD "Notebook") "Notebook")
      ∧ (∀ s ∈ buildFolderPath F N folderId, s ≠ "")
      ∧ (buildFolderPath F N folderId).length ≤ F.length + 1 := by
  intro F N folderId
  refine ⟨by simp [buildFolderPath], rfl, ?_, ?_⟩
  · intro s hs
    simp only [buildFolderPath] at hs
    rcases List.mem_cons.mp hs with rfl | h2
    · exact safeName_ne_empty _ _ (by decide)
    · exact buildFolderGo_ne_empty F _ _ _ s h2
  · simp only [buildFolderPath, List.length_cons]
    have h1 := buildFolderGo_length F (F.length + 1) (jsTruthyOpt folderId) []
    have h2 : ((F.map Prod.fst).filter (fun x => !List.contains [] x)).length ≤ F.length := by
      simp
    omega

/-- Witness for C4 (amended), at the two-notebook folder tree of the
counterexample. -/
theorem C4_buildFolderPath_amended_witness :
    buildFolderPath twoNbFolders twoNbNotebooks (some "B") ≠ []
    ∧ (∀ s ∈ buildFolderPath twoNbFolders twoNbNotebooks (some "B"), s ≠ "")
    ∧ (buildFolderPath twoNbFolders twoNbNotebooks (some "B")).length
        ≤ twoNbFolders.length + 1 := by
  obtain ⟨h1, h2, h3, h4⟩ := C4_buildFolderPath_amended twoNbFolders twoNbNotebooks (some "B")
  exact ⟨h1, h3, h4⟩

/-- Claim C5, counterexample: the claim says the fallback `New Note` applies
whenever the content consists entirely of headings with no text.  For the
content `"#"` (a bare heading marker) the captured first line trims to
`"#"`, the heading-strip regex requires whitespace after the hashes and so
does not fire, and the function returns `"#"` rather than `New Note`. -/
theorem C5_bare_heading_marker_cex :
    noteTitleFromContent (some "#") = "#"
    ∧ noteTitleFromContent (some "## ") = "##"
    ∧ ("#" : String) ≠ "New Note" := by
  decide

/-- Claim C5 (amended): the title is taken from the first non-empty line of
the content (leading whitespace, including blank lines, is skipped and does
not affect the result), is never empty, and falls back to `"New Note"`
exactly when the content is empty or entirely whitespace; a Markdown
heading's `#` characters are stripped only when one to six hashes are
followed by whitespace and further text, so a trimmed heading line
`#^n ␣ title` (fitting the 64-character capture) yields `title`, while a
bare heading marker is returned as-is (see the counterexample).  -/
theorem C5_noteTitle_amended :
    (∀ c : Option String, noteTitleFromContent c ≠ "")
    ∧ noteTitleFromContent none = "New Note"
    ∧ (∀ s : String, s.toList.all jsWhitespace = true →
        noteTitleFromContent (some s) = "New Note")
    ∧ (∀ pre t : List Char, pre.all jsWhitespace = true →
        noteTitleFromContent (some (String.mk (pre ++ t)))
          = noteTitleFromContent (some (String.mk t)))
    ∧ (∀ (c : Char) (t' : List Char), jsWhitespace c = false → c ≠ '#' →
        (∀ x ∈ c :: t', x ≠ '\n' ∧ x ≠ '\r') →
        (c :: t').getLast?.all (fun x => !jsWhitespace x) = true →
        (c :: t').length ≤ 64 →
        noteTitleFromContent (some (String.mk (c :: t'))) = String.mk (c :: t'))
    ∧ (∀ (n : Nat) (c : Char) (t' : List Char), 1 ≤ n → n ≤ 6 → jsWhitespace c = false →
        (∀ x ∈ c :: t', x ≠ '\n' ∧ x ≠ '\r') →
        (c :: t').getLast?.all (fun x => !jsWhitespace x) = true →
        n + 1 + (c :: t').length ≤ 64 →
        noteTitleFromContent (some (String.mk (List.replicate n '#' ++ ' ' :: c :: t')))
          = String.mk (c :: t')) :=
  ⟨noteTitle_ne_empty, by decide, noteTitle_all_ws, noteTitle_ws_prefix,
   noteTitle_trimmed_line, noteTitle_heading⟩

/-- Witness for C5 (amended), at the content `"## Hi"`. -/
theorem C5_noteTitle_amended_witness :
    jsWhitespace 'H' = false ∧ (1 : Nat) ≤ 2 ∧ (2 : Nat) ≤ 6
    ∧ noteTitleFromContent (some (String.mk (List.replicate 2 '#' ++ ' ' :: 'H' :: ['i'])))
        = String.mk ('H' :: ['i']) :=
  ⟨by decide, by decide, by decide,
   C5_noteTitle_amended.2.2.2.2.2 2 'H' ['i'] (by decide) (by decide) (by decide)
     (by decide) (by decide) (by decide)⟩

/-- Claim C7: `loadPersistentState` is a total function returning `none`
exactly when the metadata store is absent, unreadable or malformed;
otherwise it returns the stored metadata with each note rehydrated
independently by `hydrateNote`, which substitutes the recorded content
file's body (converted by `turndown` when the record is `htmlRel` and the
converter is available) when the file exists and is readable, and leaves
the metadata entry untouched when no file is recorded, the file is missing,
or reading it fails. -/
theorem C7_load_never_throws_and_hydrates :
    ∀ (fs : FS) (root : Path) (conv : Option (String → String)),
      (loadPersistentState fs root conv = none
        ↔ readStoreFile fs (metaFilePath root) = none)
      ∧ (∀ M, readStoreFile fs (metaFilePath root) = some M →
          ∃ m, loadPersistentState fs root conv = some m
            ∧ m.folders = M.folders ∧ m.notebooks = M.notebooks
            ∧ m.notePaths = M.notePaths ∧ m.extra = M.extra
            ∧ m.notes.length = M.notes.length
            ∧ ∀ (i : Nat) (hm : i < m.notes.length) (hM : i < M.notes.length),
                m.notes.get ⟨i, hm⟩
                  = hydrateNote fs root M.notePaths conv (M.notes.get ⟨i, hM⟩))
      ∧ (∀ (notePaths : List (String × NPEntry)) (e : String × Option Note),
          (hydrateNote fs root notePaths conv e).1 = e.1
          ∧ ((jsTruthyOpt ((assocGet notePaths e.1).bind (fun p => p.htmlRel))
                <|> jsTruthyOpt ((assocGet notePaths e.1).bind (fun p => p.mdRel))) = none →
              hydrateNote fs root notePaths conv e = e)
          ∧ (∀ rel, (jsTruthyOpt ((assocGet notePaths e.1).bind (fun p => p.htmlRel))
                <|> jsTruthyOpt ((assocGet notePaths e.1).bind (fun p => p.mdRel))) = some rel →
              existsSync fs (pathJoin root rel) = false →
              hydrateNote fs root notePaths conv e = e)
          ∧ (∀ rel, (jsTruthyOpt ((assocGet notePaths e.1).bind (fun p => p.htmlRel))
                <|> jsTruthyOpt ((assocGet notePaths e.1).bind (fun p => p.mdRel))) = some rel →
              existsSync fs (pathJoin root rel) = true →
              (∀ raw, fileAt fs (pathJoin root rel) ≠ some (FileData.text raw)) →
              hydrateNote fs root notePaths conv e = e)
          ∧ (∀ rel raw content2,
              (jsTruthyOpt ((assocGet notePaths e.1).bind (fun p => p.htmlRel))
                <|> jsTruthyOpt ((assocGet notePaths e.1).bind (fun p => p.mdRel))) = some rel →
              fileAt fs (pathJoin root rel) = some (FileData.text raw) →
              content2 = (match jsTruthyOpt ((assocGet notePaths e.1).bind (fun p => p.htmlRel)),
                  conv with
                | some _, some f => f raw
                | _, _ => raw) →
              hydrateNote fs root notePaths conv e
                = (e.1, some { e.2.getD {} with content := some content2 }))) := by
  intro fs root conv
  refine ⟨?_, ?_, ?_⟩
  · unfold loadPersistentState
    cases h : readStoreFile fs (metaFilePath root) with
    | none => simp
    | some M => simp
  · intro M hM
    unfold loadPersistentState
    rw [hM]
    refine ⟨_, rfl, rfl, rfl, rfl, rfl, by simp, ?_⟩
    intro i hm hM2
    simp [List.getElem_map]
  · intro notePaths e
    refine ⟨?_, ?_, ?_, ?_, ?_⟩
    · simp only [hydrateNote]
      cases hf : (jsTruthyOpt ((assocGet notePaths e.1).bind (fun p => p.htmlRel))
          <|> jsTruthyOpt ((assocGet notePaths e.1).bind (fun p => p.mdRel))) with
      | none => rfl
      | some rel =>
        simp only [Option.map_some']
        by_cases he : existsSync fs (pathJoin root rel) = true
        · rw [if_pos he]
          cases hr : fileAt fs (pathJoin root rel) with
          | none => rfl
          | some d => cases d <;> rfl
        · rw [if_neg he]
    · intro h0
      simp only [hydrateNote, h0]
      rfl
    · intro rel hrel hex
      simp only [hydrateNote, hrel, Option.map_some']
      rw [if_neg (by rw [hex]; exact Bool.false_ne_true)]
    · intro rel hrel hex hraw
      simp only [hydrateNote, hrel, Option.map_some']
      rw [if_pos hex]
    · intro rel raw content2 hrel hraw hc2
      simp only [hydrateNote, hrel, Option.map_some']
      rw [if_pos (fileAt_some_existsSync hraw), hraw, hc2]

/-- Witness for C7, applying the iff and the hydration clause at a concrete
store: a one-note store whose recorded `htmlRel` file exists and is
readable. -/
theorem C7_load_never_throws_and_hydrates_witness :
    (loadPersistentState
        ({ dirs := [["R"]],
           files := [(metaFilePath ["R"], FileData.store
             { notes := [("n", some { deleted := false })],
               notePaths := [("n", { htmlRel := some "Notebook/A/A.html" })] }),
             (["R", "Notebook", "A", "A.html"], FileData.text "BODY")] } : FS)
        ["R"] none = none ↔ readStoreFile
          ({ dirs := [["R"]],
             files := [(metaFilePath ["R"], FileData.store
               { notes := [("n", some { deleted := false })],
                 notePaths := [("n", { htmlRel := some "Notebook/A/A.html" })] }),
               (["R", "Notebook", "A", "A.html"], FileData.text "BODY")] } : FS)
          (metaFilePath ["R"]) = none)
    ∧ hydrateNote
        ({ dirs := [["R"]],
           files := [(metaFilePath ["R"], FileData.store
             { notes := [("n", some { deleted := false })],
               notePaths := [("n", { htmlRel := some "Notebook/A/A.html" })] }),
             (["R", "Notebook", "A", "A.html"], FileData.text "BODY")] } : FS)
        ["R"] [("n", { htmlRel := some "Notebook/A/A.html" })] none
        ("n", some { deleted := false })
      = ("n", some { content := some "BODY", deleted := false }) := by
  refine ⟨(C7_load_never_throws_and_hydrates _ _ _).1, ?_⟩
  have h := ((C7_load_never_throws_and_hydrates
    ({ dirs := [["R"]],
       files := [(metaFilePath ["R"], FileData.store
         { notes := [("n", some { deleted := false })],
           notePaths := [("n", { htmlRel := some "Notebook/A/A.html" })] }),
         (["R", "Notebook", "A", "A.html"], FileData.text "BODY")] } : FS)
    ["R"] none).2.2 [("n", { htmlRel := some "Notebook/A/A.html" })]
    ("n", some { deleted := false })).2.2.2.2 "Notebook/A/A.html" "BODY" "BODY"
    (by decide) (by decide) (by decide)
  rw [h]
  rfl

/-- Claim C6, counterexample: saving `delData` over `delMeta` leaves the
vanished note `v1`'s store-index entry and directory in place (the cleanup
loop's `!nextNotePaths[noteId]` test is false because `nextNotePaths`
starts as a copy of the previous index), and a subsequent load still lists
the deleted note `d1` in the returned snapshot's notes. -/
theorem C6_vanished_entry_kept_and_deleted_note_listed_cex :
    (readStoreFile delSave.1 (metaFilePath exRoot)).map (fun m => m.notePaths)
      = some [("v1", { dirRel := some "Notebook/Vanish", htmlRel := none, mdRel := none })]
    ∧ existsSync delSave.1 ["Docs", "CurNotes", "Notebook", "Vanish"] = true
    ∧ (loadPersistentState delSave.1 exRoot none).map (fun m => m.notes.map (fun p => p.1))
      = some ["d1"] := by
  decide

/-- Claim C6 (amended): deletion cleanup applies to notes flagged deleted in
the snapshot, not to identifiers that merely vanished from it.  (1) For a
note id flagged deleted in the snapshot (every snapshot entry for that id
is a deleted note), the written store is the stripped metadata blob, its
`notePaths` index has no entry for the id, and a subsequent load succeeds —
but it still lists the note (metadata entries are kept for every snapshot
note), with `content` erased and `deleted` still set; identifiers absent
from the snapshot keep whatever index entry they had before the save (the
vanished-note cleanup loop never fires) and are not listed by the load.
(2) The per-note save step for a deleted note is exactly: best-effort
removal of the recorded directory via `safeRmDir` plus dropping the id from
the index.  (3) `safeRmDir` really removes an existing recorded directory
whose rendered path passes the prefix guard. -/
theorem C6_deleted_note_purged_amended :
    (∀ (root : Path) (conv : Option (String → String)) (data : Snapshot) (fs0 : FS)
       (noteId : String),
       (∃ n, (noteId, some n) ∈ data.notes ∧ n.deleted = true) →
       (∀ p ∈ data.notes, p.1 = noteId → ∀ n, p.2 = some n → n.deleted = true) →
       readStoreFile (savePersistentState fs0 root conv data).1 (metaFilePath root)
         = some (savedMeta fs0 root conv data)
       ∧ assocGet (savedMeta fs0 root conv data).notePaths noteId = none
       ∧ ∀ conv2, ∃ m,
           loadPersistentState (savePersistentState fs0 root conv data).1 root conv2 = some m
           ∧ (∃ p ∈ m.notes, p.1 = noteId)
           ∧ (∀ p ∈ m.notes, p.1 = noteId → ∀ n, p.2 = some n →
                n.content = none ∧ n.deleted = true)
           ∧ (∀ vid, (∀ p ∈ data.notes, p.1 ≠ vid) →
                assocGet (savedMeta fs0 root conv data).notePaths vid
                  = assocGet (savePrevNotePaths fs0 root) vid
                ∧ ∀ p ∈ m.notes, p.1 ≠ vid))
    ∧ (∀ (root : Path) (F : List (String × Folder)) (N : List (String × Notebook))
         (conv : Option (String → String)) (prevNP : List (String × NPEntry))
         (st : SaveSt) (nid : String) (n : Note), n.deleted = true →
         saveOneNote root F N conv prevNP st (nid, some n)
           = { fs := (safeRmDir st.fs root ((assocGet prevNP nid).bind (fun e => e.dirRel))).1,
               np := assocDel st.np nid, active := st.active,
               trace := st.trace
                 ++ (safeRmDir st.fs root ((assocGet prevNP nid).bind (fun e => e.dirRel))).2 })
    ∧ (∀ (fs : FS) (root : Path) (rel : String), rel ≠ "" →
         strHasPrefix (pathToString root) (pathToString (pathJoin root rel)) = true →
         existsSync fs (pathJoin root rel) = true →
         existsSync (safeRmDir fs root (some rel)).1 (pathJoin root rel) = false) := by
  refine ⟨?_, ?_, ?_⟩
  · intro root conv data fs0 noteId hocc hall
    have hM : readStoreFile (savePersistentState fs0 root conv data).1 (metaFilePath root)
        = some (savedMeta fs0 root conv data) := by
      simp only [savePersistentState]
      exact readStore_write_cleanup _ _ _ _ _
    have hz : assocGet (savedMeta fs0 root conv data).notePaths noteId = none := by
      simp only [savedMeta, saveSt2]
      refine foldl_cleanupVanished_np_none root _ noteId _ _ ?_
      refine foldl_saveOneNote_np_none root data.folders data.notebooks conv _ noteId
        data.notes _ hall (Or.inl ?_)
      obtain ⟨n, hmem, hdel⟩ := hocc
      exact ⟨(noteId, some n), hmem, rfl, n, rfl⟩
    refine ⟨hM, hz, ?_⟩
    intro conv2
    refine ⟨{ savedMeta fs0 root conv data with
              notes := (savedMeta fs0 root conv data).notes.map
                (hydrateNote (savePersistentState fs0 root conv data).1 root
                  (savedMeta fs0 root conv data).notePaths conv2) }, ?_, ?_, ?_, ?_⟩
    · simp only [loadPersistentState, hM]
    · obtain ⟨n, hmem, -⟩ := hocc
      refine ⟨_, List.mem_map.mpr ⟨_, List.mem_map.mpr ⟨(noteId, some n), hmem, rfl⟩, rfl⟩, ?_⟩
      rw [hydrateNote_fst]
    · intro p hp hpk n2 hpn
      obtain ⟨e, he, rfl⟩ := List.mem_map.mp hp
      obtain ⟨q, hq, rfl⟩ := List.mem_map.mp he
      rw [hydrateNote_fst] at hpk
      have hq1 : q.1 = noteId := hpk
      have hid := hydrateNote_no_entry (savePersistentState fs0 root conv data).1 root
        (savedMeta fs0 root conv data).notePaths conv2
        (q.1, q.2.map (fun nn => { nn with content := none }))
        (by show assocGet (savedMeta fs0 root conv data).notePaths q.1 = none
            rw [hq1]; exact hz)
      rw [hid] at hpn
      have hpn2 : q.2.map (fun nn => { nn with content := none }) = some n2 := hpn
      cases hq2 : q.2 with
      | none => rw [hq2] at hpn2; simp at hpn2
      | some qn =>
        rw [hq2] at hpn2
        simp only [Option.map_some'] at hpn2
        have hn2 := Option.some.inj hpn2
        refine ⟨?_, ?_⟩
        · rw [← hn2]
        · rw [← hn2]
          exact hall q hq hq1 qn hq2
    · intro vid hvnotin
      constructor
      · simp only [savedMeta, saveSt2]
        cases hpv : assocGet (savePrevNotePaths fs0 root) vid with
        | none =>
          refine foldl_cleanupVanished_np_none root _ vid _ _ ?_
          rw [foldl_saveOneNote_np_pres root data.folders data.notebooks conv _ vid
            data.notes _ hvnotin]
          exact hpv
        | some e =>
          refine foldl_cleanupVanished_np_some root _ vid e _ _ ?_
          rw [foldl_saveOneNote_np_pres root data.folders data.notebooks conv _ vid
            data.notes _ hvnotin]
          exact hpv
      · intro p hp
        obtain ⟨e, he, rfl⟩ := List.mem_map.mp hp
        obtain ⟨q, hq, rfl⟩ := List.mem_map.mp he
        rw [hydrateNote_fst]
        exact hvnotin q hq
  · intro root F N conv prevNP st nid n hdel
    exact saveOneNote_deleted root F N conv prevNP st nid n hdel
  · intro fs root rel hne hpre hex
    have hj : jsTruthyOpt (some rel) = some rel := by
      simp only [jsTruthyOpt]
      rw [if_neg hne]
    simp only [safeRmDir, hj, hpre, Bool.not_true, Bool.false_eq_true, if_false, hex, if_true]
    exact existsSync_rmRecursive_self fs (pathJoin root rel)

/-- Witness for C6 (amended), at the `delData` scenario: the index written
over `fsDel` drops the deleted note `d1`, yet the subsequent load still
lists `d1`. -/
theorem C6_deleted_note_purged_amended_witness :
    assocGet (savedMeta fsDel exRoot none delData).notePaths "d1" = none
    ∧ ∃ m, loadPersistentState (savePersistentState fsDel exRoot none delData).1 exRoot none
        = some m ∧ ∃ p ∈ m.notes, p.1 = "d1" := by
  have h := C6_deleted_note_purged_amended.1 exRoot none delData fsDel "d1"
    ⟨{ deleted := true }, by decide, rfl⟩
    (by intro p hp hpk n hpn
        simp only [delData] at hp
        have hp1 : p = ("d1", some { deleted := true }) := List.mem_singleton.mp hp
        subst hp1
        have hn := Option.some.inj hpn
        rw [← hn])
  obtain ⟨m, hm, hmem, -, -⟩ := h.2.2 none
  exact ⟨h.2.1, m, hm, hmem⟩

/-- Claim C10: `saveNoteRevisions(noteId, revisions)` only modifies the
revision entry keyed by `noteId`: in the written revisions file the entry
for `noteId` holds the given revisions, every other identifier keeps the
value it had in the existing file (its last entry, per `Map` semantics),
and no other file of the store changes. -/
theorem C10_saveNoteRevisions_frame :
    ∀ (fs : FS) (root : Path) (noteId : String) (revisions : String)
      (l : List (String × String)),
      fileAt fs (revisionsFilePath root) = some (FileData.revs l) →
      ∃ l2, fileAt (saveNoteRevisions fs root noteId revisions) (revisionsFilePath root)
          = some (FileData.revs l2)
        ∧ assocGet l2 noteId = some revisions
        ∧ (∀ k, k ≠ noteId → assocGet l2 k = assocGet l.reverse k)
        ∧ (∀ p, p ≠ revisionsFilePath root →
            fileAt (saveNoteRevisions fs root noteId revisions) p = fileAt fs p) := by
  intro fs root noteId revisions l h
  refine ⟨assocSet (jsMapOfEntries l) noteId revisions, ?_, ?_, ?_, ?_⟩
  · simp only [saveNoteRevisions, h, writeJsonFileFS]
    exact fileAt_write_self _ _ _
  · exact assocGet_set_self _ _ _
  · intro k hk
    rw [assocGet_set_ne _ _ _ _ (fun hh => hk hh.symm)]
    exact assocGet_jsMapOfEntries l k
  · intro p hp
    simp only [saveNoteRevisions, h, writeJsonFileFS]
    rw [fileAt_write_ne _ _ _ _ (fun hh => hp hh.symm)]
    exact fileAt_mkdirp _ _ _

/-- Witness for C10: a two-entry revisions file where only `a` is updated
and `b` keeps its value. -/
theorem C10_saveNoteRevisions_frame_witness :
    fileAt ({ dirs := [["R"]],
              files := [(revisionsFilePath ["R"],
                         FileData.revs [("a", "r1"), ("b", "r2")])] } : FS)
      (revisionsFilePath ["R"]) = some (FileData.revs [("a", "r1"), ("b", "r2")])
    ∧ ∃ l2, fileAt (saveNoteRevisions
          ({ dirs := [["R"]],
             files := [(revisionsFilePath ["R"],
                        FileData.revs [("a", "r1"), ("b", "r2")])] } : FS) ["R"] "a" "r9")
          (revisionsFilePath ["R"]) = some (FileData.revs l2)
        ∧ assocGet l2 "a" = some "r9"
        ∧ (∀ k, k ≠ "a" → assocGet l2 k = assocGet [("a", "r1"), ("b", "r2")].reverse k)
        ∧ (∀ p, p ≠ revisionsFilePath ["R"] →
            fileAt (saveNoteRevisions
              ({ dirs := [["R"]],
                 files := [(revisionsFilePath ["R"],
                            FileData.revs [("a", "r1"), ("b", "r2")])] } : FS) ["R"] "a" "r9") p
              = fileAt ({ dirs := [["R"]],
                          files := [(revisionsFilePath ["R"],
                                     FileData.revs [("a", "r1"), ("b", "r2")])] } : FS) p) :=
  ⟨by decide,
   C10_saveNoteRevisions_frame _ ["R"] "a" "r9" [("a", "r1"), ("b", "r2")] (by decide)⟩

/-- Claim C9: `saveNoteAssetFromDataUrl` returns `null` (never throws)
whenever the supplied data URI does not decode to a non-empty image,
writing no asset file in that case (only the metadata store may be touched,
by the `dirRel` persistence step); on success it writes exactly one new
file `pasted-<timestamp>.<ext>` under the note's `assets/` subdirectory —
`ext` is `jpg` iff the declared MIME type is exactly `image/jpeg`, `png`
otherwise — leaves every other file (apart from the metadata store)
unchanged, and returns the note-relative path `assets/<fileName>` together
with an absolute file URL. -/
theorem C9_saveNoteAssetFromDataUrl_spec :
    ∀ (fs : FS) (root : Path) (decodeImage : String → Option String)
      (toJPEG toPNG : String → String) (now : Nat) (noteId : String) (note : Note)
      (mimeType dataUrl : String) (folders : Option (List (String × Folder)))
      (notebooks : Option (List (String × Notebook))),
      (decodeImage (normalizeDataUrl dataUrl) = none →
        (saveNoteAssetFromDataUrl fs root decodeImage toJPEG toPNG now noteId note
            mimeType dataUrl folders notebooks).2 = none
        ∧ (∀ p, p ≠ metaFilePath root →
            fileAt (saveNoteAssetFromDataUrl fs root decodeImage toJPEG toPNG now noteId note
              mimeType dataUrl folders notebooks).1 p = fileAt fs p))
      ∧ (∀ img fileName filePath,
          decodeImage (normalizeDataUrl dataUrl) = some img →
          fileName = "pasted-" ++ toString now ++ "."
            ++ (if mimeType = "image/jpeg" then "jpg" else "png") →
          filePath = joinSeg (joinSeg
            (resolveNoteDir fs root noteId note folders notebooks).2 "assets") fileName →
          (saveNoteAssetFromDataUrl fs root decodeImage toJPEG toPNG now noteId note
              mimeType dataUrl folders notebooks).2
            = some ("assets/" ++ fileName, pathToFileURL filePath)
          ∧ fileAt (saveNoteAssetFromDataUrl fs root decodeImage toJPEG toPNG now noteId note
                mimeType dataUrl folders notebooks).1 filePath
              = some (FileData.text (if mimeType = "image/jpeg" then toJPEG img else toPNG img))
          ∧ (∀ p, p ≠ metaFilePath root → p ≠ filePath →
              fileAt (saveNoteAssetFromDataUrl fs root decodeImage toJPEG toPNG now noteId note
                mimeType dataUrl folders notebooks).1 p = fileAt fs p)) := by
  intro fs root decodeImage toJPEG toPNG now noteId note mimeType dataUrl folders notebooks
  constructor
  · intro hD
    constructor
    · simp only [saveNoteAssetFromDataUrl, hD]
    · intro p hp
      simp only [saveNoteAssetFromDataUrl, hD]
      rw [fileAt_mkdirp]
      exact fileAt_resolveNoteDir_ne _ _ _ _ _ _ p hp
  · intro img fileName filePath hD hfn hfp
    subst hfn
    subst hfp
    refine ⟨?_, ?_, ?_⟩
    · simp only [saveNoteAssetFromDataUrl, hD]
    · simp only [saveNoteAssetFromDataUrl, hD]
      exact fileAt_write_self _ _ _
    · intro p hp1 hp2
      simp only [saveNoteAssetFromDataUrl, hD]
      rw [fileAt_write_ne _ _ _ _ (fun hh => hp2 hh.symm), fileAt_mkdirp]
      exact fileAt_resolveNoteDir_ne _ _ _ _ _ _ p hp1

/-- Witness for C9: a fresh store, a decoder accepting the data URL, and a
PNG MIME type; the asset lands in `Notebook/New Note/assets`. -/
theorem C9_saveNoteAssetFromDataUrl_spec_witness :
    (fun _ => some "IMG" : String → Option String) (normalizeDataUrl "data:image/png;base64,AA")
        = some "IMG"
    ∧ (saveNoteAssetFromDataUrl ({} : FS) ["R"] (fun _ => some "IMG") id id 7 "n" {}
        "image/png" "data:image/png;base64,AA" none none).2
      = some ("assets/pasted-7.png", pathToFileURL (joinSeg (joinSeg
          (resolveNoteDir ({} : FS) ["R"] "n" {} none none).2 "assets") "pasted-7.png")) := by
  refine ⟨rfl, ?_⟩
  have h := ((C9_saveNoteAssetFromDataUrl_spec ({} : FS) ["R"] (fun _ => some "IMG") id id 7
    "n" {} "image/png" "data:image/png;base64,AA" none none).2 "IMG"
    ("pasted-" ++ toString 7 ++ "." ++ (if ("image/png" : String) = "image/jpeg" then "jpg" else "png"))
    (joinSeg (joinSeg (resolveNoteDir ({} : FS) ["R"] "n" {} none none).2 "assets")
      ("pasted-" ++ toString 7 ++ "." ++ (if ("image/png" : String) = "image/jpeg" then "jpg" else "png")))
    rfl rfl rfl).1
  rw [h]
  decide

end CurNote
